import Mathlib

/-!
Verification of the cppclean parsing core (cpp/tokenize.py and cpp/ast.py)
against its natural-language specification.

The development is a shallow embedding: Python strings become `List Char`
with explicit index arithmetic (including Python's negative-index wrap),
Python string methods (`find`, slicing, `strip`, `ljust`, ...) are modelled
by executable Lean functions, and the two genuinely-unbounded loops of the
tokenizer (the main `while i < end` loop of `get_tokens`, which can reset
`i` backwards after an unterminated string literal, and the rescan loop of
`_get_string`) are driven by an explicit fuel parameter.  Fallible Python
code (raised `TokenError`, failed `assert`, `IndexError`, divergence) is
modelled by explicit outcome values.
-/

namespace Cppclean

/-! ## Python string primitives -/

/-- Python `str.isspace`, restricted to the ASCII whitespace characters. -/
def pyIsSpace (c : Char) : Bool :=
  c = ' ' || c = '\t' || c = '\n' || c = '\r' || c = '\x0b' || c = '\x0c'

/-- Python `str.isdigit` on ASCII. -/
def pyIsDigit (c : Char) : Bool := '0' ≤ c && c ≤ '9'

/-- Python `str.isalpha` on ASCII. -/
def pyIsAlpha (c : Char) : Bool := ('a' ≤ c && c ≤ 'z') || ('A' ≤ c && c ≤ 'Z')

/-- Python `str.lower` on a single ASCII character. -/
def pyToLower (c : Char) : Char :=
  if 'A' ≤ c && c ≤ 'Z' then Char.ofNat (c.toNat + 32) else c

/-- The single-quote character (spelled via its code point). -/
def squote : Char := Char.ofNat 39

/-- Python slicing `s[a:b]` for non-negative bounds. -/
def pySlice (s : List Char) (a b : Nat) : List Char := (s.take b).drop a

/-- Python indexing `s[j]` with negative-index wrap-around;
`none` models an `IndexError`. -/
def pyIndexI (s : List Char) (j : Int) : Option Char :=
  if 0 ≤ j then s[j.toNat]?
  else
    let k : Int := (s.length : Int) + j
    if 0 ≤ k then s[k.toNat]? else none

/-- Does `sub` occur at the head of `rest`? -/
def subAt : List Char → List Char → Bool
  | [], _ => true
  | _ :: _, [] => false
  | c :: cs, d :: ds => c = d && subAt cs ds

/-- Scan `rest` (which sits at absolute position `p`) for the first
occurrence of `sub`; returns the absolute position. -/
def pyFindAux (sub : List Char) : List Char → Nat → Option Nat
  | [], _ => none
  | c :: rest, p =>
    if subAt sub (c :: rest) then some p else pyFindAux sub rest (p + 1)

/-- Python `s.find(sub, start)`; `none` models the return value `-1`.
(All calls in the embedded code pass a non-empty `sub`.) -/
def pyFind (s sub : List Char) (start : Nat) : Option Nat :=
  pyFindAux sub (s.drop start) start

/-- Python `s.find(sub, start, stop)` (the occurrence must fit below `stop`). -/
def pyFindB (s sub : List Char) (start stop : Nat) : Option Nat :=
  pyFindAux sub ((s.take stop).drop start) start

/-- Length of the whitespace run at the head of a list. -/
def countWs : List Char → Nat
  | [] => 0
  | c :: r => if pyIsSpace c then countWs r + 1 else 0

/-- The `while i < end and source[i].isspace(): i += 1` loop of `get_tokens`. -/
def skipWs (s : List Char) (i : Nat) : Nat := i + countWs (s.drop i)

/-- Length of the run of characters satisfying `p` at the head of a list;
`none` means the run reached the end of the list, i.e. the next
`source[i]` read of the modelled `while source[i] in ...` loop would
raise `IndexError`. -/
def countWhileGo (p : Char → Bool) : List Char → Option Nat
  | [] => none
  | c :: r => if p c then (countWhileGo p r).map (· + 1) else some 0

/-- Position after a `while source[i] in chars: i += 1` loop started at `i`. -/
def consumeWhile (p : Char → Bool) (s : List Char) (i : Nat) : Option Nat :=
  (countWhileGo p (s.drop i)).map (i + ·)

/-! ## Character classes of cpp/tokenize.py (lines 26-37) -/

/-- `VALID_IDENTIFIER_FIRST_CHARS` (ASCII letters, `_`, `$`). -/
def identFirstChar (c : Char) : Bool :=
  ('a' ≤ c && c ≤ 'z') || ('A' ≤ c && c ≤ 'Z') || c = '_' || c = '$'

/-- `VALID_IDENTIFIER_CHARS`. -/
def identChar (c : Char) : Bool := identFirstChar c || pyIsDigit c

/-- `HEX_DIGITS`. -/
def hexDigitChar (c : Char) : Bool :=
  pyIsDigit c || ('a' ≤ c && c ≤ 'f') || ('A' ≤ c && c ≤ 'F')

/-- `INT_OR_FLOAT_DIGITS` (`'01234567890eE-+'`). -/
def intOrFloatChar (c : Char) : Bool :=
  pyIsDigit c || c = 'e' || c = 'E' || c = '-' || c = '+'

/-- `int_or_float_digits2 = int_or_float_digits | set('.')`. -/
def intOrFloatChar2 (c : Char) : Bool := intOrFloatChar c || c = '.'

/-- `_STR_PREFIXES`, the C++0x string/char literal prefixes. -/
def strLitPrefixes : List (List Char) :=
  [['R'], ['u', '8'], ['u', '8', 'R'], ['u'], ['u', 'R'],
   ['U'], ['U', 'R'], ['L'], ['L', 'R']]

/-! ## Tokens and tokenizer outcomes -/

/-- The token types of cpp/tokenize.py (lines 40-45). -/
inductive TokKind where
  | unknown
  | syn
  | constant
  | name
  | preproc
deriving DecidableEq, Repr

/-- `Token`: `start`/`end` are offsets into the source buffer
(`end` is spelled `stop` here because `end` is reserved in Lean). -/
structure Tok where
  kind : TokKind
  text : List Char
  start : Nat
  stop : Nat
deriving DecidableEq, Repr

/-- How a tokenizer run can fail: `tokenError` models a raised `TokenError`,
`assertionError` a failed bare `assert`, `indexError` a Python `IndexError`,
and `divergence` a non-terminating rescan in `_get_string` (or exhaustion of
the generous internal fuel of a scanning loop). -/
inductive TkErr where
  | tokenError (s : List Char)
  | assertionError
  | indexError
  | divergence
deriving DecidableEq, Repr

inductive Outcome where
  | ok
  | fail (e : TkErr)
  | fuel
deriving DecidableEq, Repr

/-- The loop state of `get_tokens`: the (mutable!) source buffer, the scan
position `i` and the `#if`-suppression depth `count_ifs`. -/
structure TkState where
  src : List Char
  i : Nat
  countIfs : Nat
deriving DecidableEq, Repr

/-- Result of one iteration of the `while i < end` loop of `get_tokens`. -/
inductive StepOut where
  | yield (t : Tok) (st : TkState)
  | skip (st : TkState)
  | done
  | fail (e : TkErr)
deriving DecidableEq, Repr

/-- Result of a quote-scanning helper. -/
inductive ScanRes where
  | ok (i : Nat)
  | idxErr
  | noFuel
deriving DecidableEq, Repr

/-! ## `_get_string` and `_get_char` (tokenize.py lines 76-101) -/

/-- The backslash-counting inner loop of `_get_string` (lines 79-84):
count of consecutive backslashes scanning backward from index `j`
(Python indexing, hence `Int` and negative wrap); `none` = `IndexError`. -/
def countBackslashes (s : List Char) : Nat → Int → Option Nat
  | 0, _ => none
  | fuel + 1, j =>
    match pyIndexI s j with
    | none => none
    | some c =>
      if c = '\\' then (countBackslashes s fuel (j - 1)).map (· + 1) else some 0

/-- The rescan loop of `_get_string`; the loop variable `i` is a Python int
(it is `-1` whenever `find` failed). -/
def getStringGo (s : List Char) : Nat → Int → ScanRes
  | 0, _ => .noFuel
  | fuel + 1, i =>
    match pyIndexI s (i - 1) with
    | none => .idxErr
    | some c =>
      if c = '\\' then
        match countBackslashes s (2 * s.length + 2) (i - 2) with
        | none => .idxErr
        | some k =>
          if (1 + k) % 2 = 0 then .ok (i + 1).toNat
          else
            match pyFind s ['"'] (i + 1).toNat with
            | none => getStringGo s fuel (-1)
            | some p => getStringGo s fuel p
      else .ok (i + 1).toNat

/-- `_get_string(source, i)`. -/
def getString (s : List Char) (i : Nat) : ScanRes :=
  match pyFind s ['"'] (i + 1) with
  | none => getStringGo s (2 * s.length + 4) (-1)
  | some p => getStringGo s (2 * s.length + 4) p

/-- The rescan loop of `_get_char` (`none` position = Python `-1`). -/
def getCharGo (s : List Char) (start : Nat) : Nat → Option Nat → ScanRes
  | 0, _ => .noFuel
  | _ + 1, none => .ok (start + 1)
  | fuel + 1, some p =>
    match pyIndexI s ((p : Int) - 1) with
    | none => .idxErr
    | some c =>
      if c = '\\' then
        match pyIndexI s ((p : Int) - 2) with
        | none => .idxErr
        | some d =>
          if d = '\\' then .ok (p + 1)
          else getCharGo s start fuel (pyFind s [squote] (p + 1))
      else .ok (p + 1)

/-- `_get_char(source, start, i)`. -/
def getChar (s : List Char) (start i : Nat) : ScanRes :=
  getCharGo s start (s.length + 2) (pyFind s [squote] (i + 1))

/-! ## The preprocessor-directive scan loop (tokenize.py lines 228-270) -/

/-- Result of the `while True` directive scan: the (possibly rewritten)
source buffer, the new scan position and the new `count_ifs`. -/
inductive PpRes where
  | ok (src : List Char) (i : Nat) (countIfs : Nat)
  | fail (e : TkErr)
deriving DecidableEq, Repr

/-- `min([x for x in candidates if x != -1])` where `endPos` is always a
candidate. -/
def minCandidates (l : List (Option Nat)) (endPos : Nat) : Nat :=
  (l.filterMap id).foldl min endPos

/-- `source[:a].ljust(b) + source[b:]` — overwrite `[a, b)` with spaces,
preserving offsets (used to consume a comment inside a directive and to
consume a closing `#endif`). -/
def blankRange (s : List Char) (a b : Nat) : List Char :=
  let pre := s.take a
  pre ++ List.replicate (b - pre.length) ' ' ++ s.drop b

/-- The `while True` loop handling preprocessor statements
(line continuations, embedded comments and quoted paths, and the `#if`
condition check).  `start` is the position of the `#`; `gotIf` is
`source[start:start+3] == '#if'`. -/
def ppScan (gotIf : Bool) (start : Nat) :
    Nat → List Char → Nat → Nat → PpRes
  | 0, _, _, _ => .fail .divergence
  | fuel + 1, source, i, countIfs =>
    let endPos := source.length
    let i1 := pyFind source ['\n'] i
    let i2 := pyFind source ['/', '/'] i
    let i3 := pyFind source ['/', '*'] i
    let i4 := pyFind source ['"'] i
    let im := minCandidates [i1, i2, i3, i4] endPos
    if i3 = some im then
      -- handle comments in #define macros: blank the comment, continue
      match pyFind source ['*', '/'] im with
      | none => .fail (.tokenError ['*', '/'])
      | some p =>
        ppScan gotIf start fuel (blankRange source im (p + 2)) (p + 2) countIfs
    else
      match source[im]? with
      | none => .fail .indexError
      | some c =>
        if c = '"' then
          -- handle #include "dir//foo.h" properly
          match pyFind source ['"'] (im + 1) with
          | none => .fail (.tokenError ['"'])
          | some p => ppScan gotIf start fuel source (p + 1) countIfs
        else if i1 = some im && pyIndexI source ((im : Int) - 1) = some '\\' then
          -- the line ends with a continuation backslash
          ppScan gotIf start fuel source (im + 1) countIfs
        else if gotIf then
          let begin0 : Int :=
            match pyFindB source ['('] start im with
            | some p => (p : Int)
            | none =>
              match pyFind source [' '] start with
              | some p => (p : Int)
              | none => -1
          let beginN := (begin0 + 1).toNat
          let s1 := pyFind source [' '] beginN
          let s2 := pyFind source [')'] beginN
          let s3 := pyFind source ['\n'] beginN
          let s := minCandidates [s1, s2, s3] endPos
          let condition := pySlice source beginN s
          if countIfs ≠ 0 || condition = ['0'] || condition = "__OBJC__".toList
          then .ok source im (countIfs + 1)
          else .ok source im countIfs
        else .ok source im countIfs

/-! ## One iteration of the `get_tokens` loop (tokenize.py lines 128-286) -/

/-- The common tail of the loop body: `if count_ifs: continue`,
`assert i > 0`, `yield Token(token_type, source[start:i], start, i)`. -/
def emit (source : List Char) (countIfs : Nat) (kind : TokKind)
    (start iNew : Nat) : StepOut :=
  if countIfs ≠ 0 then .skip ⟨source, iNew, countIfs⟩
  else if 0 < iNew then
    .yield ⟨kind, pySlice source start iNew, start, iNew⟩ ⟨source, iNew, 0⟩
  else .fail .assertionError

/-- A `ScanRes` continuation for the quote-scanning branches. -/
def emitScan (source : List Char) (countIfs : Nat) (start : Nat)
    (r : ScanRes) : StepOut :=
  match r with
  | .ok i1 => emit source countIfs .constant start i1
  | .idxErr => .fail .indexError
  | .noFuel => .fail .divergence

/-- The integer/float suffix loop (lines 206-212): ordered first match of
`('ull', 'll', 'ul', 'l', 'f', 'u')` against the lowercased slice. -/
def intSuffixEnd (source : List Char) (i : Nat) : Nat :=
  if (pySlice source i (i + 3)).map pyToLower = ['u', 'l', 'l'] then i + 3
  else if (pySlice source i (i + 2)).map pyToLower = ['l', 'l'] then i + 2
  else if (pySlice source i (i + 2)).map pyToLower = ['u', 'l'] then i + 2
  else if (pySlice source i (i + 1)).map pyToLower = ['l'] then i + 1
  else if (pySlice source i (i + 1)).map pyToLower = ['f'] then i + 1
  else if (pySlice source i (i + 1)).map pyToLower = ['u'] then i + 1
  else i

/-- The NAME branch (lines 139-150): consume a maximal identifier run,
then possibly reclassify as a prefixed string/char constant. -/
def lexName (source : List Char) (cnt start : Nat) : StepOut :=
  match consumeWhile identChar source start with
  | none => .fail .indexError
  | some i1 =>
    match source[i1]? with
    | none => .fail .indexError
    | some d =>
      if d = squote && strLitPrefixes.contains (pySlice source start i1) then
        emitScan source cnt start (getChar source start i1)
      else if d = '"' && strLitPrefixes.contains (pySlice source start i1) then
        emitScan source cnt start (getString source i1)
      else emit source cnt .name start i1

/-- The `/` branches (lines 151-156 for comments; `/` falls through to the
`'!*^%/'` augmented-assignment branch of lines 177-182 otherwise). -/
def lexSlash (source : List Char) (cnt start : Nat) : StepOut :=
  match source[start + 1]? with
  | none => .fail .indexError
  | some nx =>
    if nx = '/' then
      match pyFind source ['\n'] start with
      | none => .fail (.tokenError ['\n'])
      | some p => .skip ⟨source, p, cnt⟩
    else if nx = '*' then
      match pyFind source ['*', '/'] start with
      | none => .fail (.tokenError ['*', '/'])
      | some p => .skip ⟨source, p + 2, cnt⟩
    else if nx = '=' then emit source cnt .syn start (start + 2)
    else emit source cnt .syn start (start + 1)

/-- The `<`/`>` branch (lines 157-166): `<<`, `<<=`, `<=`, `>=` merge, but
two adjacent `>` are deliberately not merged. -/
def lexAngle (source : List Char) (cnt start : Nat) (c : Char) : StepOut :=
  match source[start + 1]? with
  | none => .fail .indexError
  | some n1 =>
    if n1 = c && c ≠ '>' then
      match source[start + 2]? with
      | none => .fail .indexError
      | some n2 =>
        if n2 = '=' then emit source cnt .syn start (start + 3)
        else emit source cnt .syn start (start + 2)
    else if n1 = '=' then emit source cnt .syn start (start + 2)
    else emit source cnt .syn start (start + 1)

/-- The `':+-&|='` branch (lines 167-176): `XX`, `->` and `X=` forms. -/
def lexPunct2 (source : List Char) (cnt start : Nat) (c : Char) : StepOut :=
  match source[start + 1]? with
  | none => .fail .indexError
  | some n1 =>
    if n1 = c then emit source cnt .syn start (start + 2)
    else if c = '-' && n1 = '>' then emit source cnt .syn start (start + 2)
    else if n1 = '=' then emit source cnt .syn start (start + 2)
    else emit source cnt .syn start (start + 1)

/-- The `'!*^%'` branch (lines 177-182): `X=` forms. -/
def lexEq (source : List Char) (cnt start : Nat) : StepOut :=
  match source[start + 1]? with
  | none => .fail .indexError
  | some n1 =>
    if n1 = '=' then emit source cnt .syn start (start + 2)
    else emit source cnt .syn start (start + 1)

/-- The `.` member of the single-char branch (lines 183-195): a bare `.`
followed by a digit begins a floating constant. -/
def lexDot (source : List Char) (cnt start : Nat) : StepOut :=
  match source[start + 1]? with
  | none => .fail .indexError
  | some n1 =>
    if pyIsDigit n1 then
      match consumeWhile intOrFloatChar source (start + 2) with
      | none => .fail .indexError
      | some i1 =>
        if (pySlice source i1 (i1 + 1)).map pyToLower = ['l'] ||
            (pySlice source i1 (i1 + 1)).map pyToLower = ['f'] then
          emit source cnt .constant start (i1 + 1)
        else emit source cnt .constant start i1
    else emit source cnt .syn start (start + 1)

/-- The integer branch (lines 196-212): hex or decimal digits plus the
ordered integer/float suffix check. -/
def numberDigitsEnd (source : List Char) (start : Nat) (c : Char) :
    Option Nat :=
  if c = '0' then
    match source[start + 1]? with
    | none => none
    | some n1 =>
      if n1 = 'x' || n1 = 'X' then
        consumeWhile hexDigitChar source (start + 2)
      else consumeWhile intOrFloatChar2 source start
  else consumeWhile intOrFloatChar2 source start

def lexNumber (source : List Char) (cnt start : Nat) (c : Char) : StepOut :=
  match numberDigitsEnd source start c with
  | none => .fail .indexError
  | some i1 =>
    match source[i1]? with
    | none => .fail .indexError
    | some d =>
      if pyIsAlpha d then
        emit source cnt .constant start (intSuffixEnd source i1)
      else emit source cnt .constant start i1

/-- The `#` branch (lines 219-270): `#endif` bookkeeping inside an `#if 0`
block, then the directive scan. -/
def isEndifAt (source : List Char) (cnt start : Nat) : Bool :=
  cnt ≠ 0 && pySlice source start (start + 6) = "#endif".toList

def lexHash (source : List Char) (cnt start : Nat) : StepOut :=
  if isEndifAt source cnt start && cnt = 1 then
    .skip ⟨blankRange source start (start + 6), start, 0⟩
  else
    match ppScan (pySlice source start (start + 3) = "#if".toList) start
        (source.length + 2) source start
        (if isEndifAt source cnt start then cnt - 1 else cnt) with
    | .fail e => .fail e
    | .ok src' i' cnt' => emit src' cnt' .preproc start i'

/-- The character classes of the `if`/`elif` dispatch chain of
`get_tokens` (lines 139-280), in source order: the first matching
`elif` condition wins. -/
inductive CharCl where
  | ident
  | slash
  | angle
  | punct2
  | eqcl
  | dot
  | single
  | digit
  | dquote
  | quote
  | hash
  | backslash
  | other
deriving DecidableEq, Repr

/-- Which `elif` branch of lines 139-280 handles character `c`. -/
def charClassOf (c : Char) : CharCl :=
  if identFirstChar c || c = '_' then .ident
  else if c = '/' then .slash
  else if c = '<' || c = '>' then .angle
  else if c = ':' || c = '+' || c = '-' || c = '&' || c = '|' || c = '=' then
    .punct2
  else if c = '!' || c = '*' || c = '^' || c = '%' then .eqcl
  else if c = '.' then .dot
  else if c = '(' || c = ')' || c = '[' || c = ']' || c = '{' || c = '}' ||
      c = '~' || c = '?' || c = ';' || c = ',' then
    .single
  else if pyIsDigit c then .digit
  else if c = '"' then .dquote
  else if c = squote then .quote
  else if c = '#' then .hash
  else if c = '\\' then .backslash
  else .other

/-- One iteration of the `while i < end` loop of `get_tokens` after the
whitespace skip: dispatch on the character class of `source[start]`. -/
def tokDispatch (source : List Char) (cnt start : Nat) : StepOut :=
  match source[start]? with
  | none => .done
  | some c =>
    match charClassOf c with
    | .ident => lexName source cnt start
    | .slash => lexSlash source cnt start
    | .angle => lexAngle source cnt start c
    | .punct2 => lexPunct2 source cnt start c
    | .eqcl => lexEq source cnt start
    | .dot => lexDot source cnt start
    | .single => emit source cnt .syn start (start + 1)
    | .digit => lexNumber source cnt start c
    | .dquote => emitScan source cnt start (getString source start)
    | .quote => emitScan source cnt start (getChar source start start)
    | .hash => lexHash source cnt start
    | .backslash => .skip ⟨source, start + 1, cnt⟩
    | .other =>
      if cnt ≠ 0 then .skip ⟨source, start + 1, cnt⟩
      else .fail (.tokenError [c])

/-- One iteration of the `while i < end` loop of `get_tokens`:
skip whitespace, then dispatch on the class of the current character. -/
def tokStep (st : TkState) : StepOut :=
  tokDispatch st.src st.countIfs (skipWs st.src st.i)

/-- The `while i < end` loop of `get_tokens`, fuel-driven (the loop can
genuinely fail to terminate, e.g. on an unterminated string literal inside
a suppressed `#if 0` block). -/
def tokLoop : Nat → TkState → List Tok × Outcome
  | 0, _ => ([], .fuel)
  | fuel + 1, st =>
    match tokStep st with
    | .done => ([], .ok)
    | .fail e => ([], .fail e)
    | .skip st' => tokLoop fuel st'
    | .yield t st' =>
      let r := tokLoop fuel st'
      (t :: r.1, r.2)

/-- `get_tokens(source)`: normalize the trailing newline (lines 113-114),
then run the loop from position 0 with `count_ifs = 0`. -/
def getTokens (fuel : Nat) (source : List Char) : List Tok × Outcome :=
  let src := if source.getLast? = some '\n' then source else source ++ ['\n']
  tokLoop fuel ⟨src, 0, 0⟩

/-- Forget token positions: the `(token_type, text)` projection of a run. -/
def toksProj (r : List Tok × Outcome) :
    List (TokKind × List Char) × Outcome :=
  (r.1.map fun t => (t.kind, t.text), r.2)

/-- The characters the dispatch chain of `get_tokens` recognizes: a character
matching none of these classes reaches the final `else` branch
(`raise TokenError` outside suppression, skip inside). -/
def recognizedChar (c : Char) : Bool :=
  identFirstChar c || c = '_' || c = '/' || c = '<' || c = '>' || c = ':' ||
  c = '+' || c = '-' || c = '&' || c = '|' || c = '=' || c = '!' || c = '*' ||
  c = '^' || c = '%' || c = '(' || c = ')' || c = '[' || c = ']' || c = '{' ||
  c = '}' || c = '~' || c = '?' || c = ';' || c = '.' || c = ',' ||
  pyIsDigit c || c = '"' || c = squote || c = '#' || c = '\\' || pyIsSpace c

/-! # The AST builder (cpp/ast.py) and keyword classifier (cpp/keywords.py)

The builder's token source is modelled as a single `List Tok`: in the
Python code the effective upcoming-token sequence is always
`reversed(token_queue) ++ remaining-stream`, `_get_next_token` pops its
head, `_add_back_token` conses onto it and `_add_back_tokens(ts)`
(which extends the queue with `reversed(ts)`) prepends `ts`.
Builder loops are fuel-driven; the generous fuel chosen by the concrete
drivers is an upper bound on the number of iterations. -/

/-! ## cpp/keywords.py -/

def kwTypes : List (List Char) :=
  ["bool", "char", "int", "long", "short", "double", "float", "void",
   "wchar_t", "unsigned", "signed", "size_t", "auto", "asm"].map
    String.toList

def kwTypeModifiers : List (List Char) :=
  ["register", "const", "constexpr", "extern", "static", "volatile",
   "mutable"].map String.toList

def kwOtherModifiers : List (List Char) :=
  ["class", "struct", "union", "enum"].map String.toList

def kwAccess : List (List Char) :=
  ["public", "protected", "private", "friend"].map String.toList

def kwCasts : List (List Char) :=
  ["static_cast", "const_cast", "dynamic_cast", "reinterpret_cast"].map
    String.toList

def kwOthers : List (List Char) :=
  ["true", "false", "asm", "namespace", "using", "explicit", "this",
   "operator", "sizeof", "new", "delete", "typedef", "typeid", "typename",
   "template", "virtual", "inline"].map String.toList

def kwControl : List (List Char) :=
  ["case", "switch", "default", "if", "else", "return", "goto"].map
    String.toList

def kwException : List (List Char) :=
  ["try", "catch", "throw"].map String.toList

def kwLoop : List (List Char) :=
  ["while", "do", "for", "break", "continue"].map String.toList

def kwAll : List (List Char) :=
  kwTypes ++ kwTypeModifiers ++ kwOtherModifiers ++ kwAccess ++ kwCasts ++
  kwOthers ++ kwControl ++ kwException ++ kwLoop

/-- `keywords.is_keyword`. -/
def isKeyword (t : List Char) : Bool := kwAll.contains t

/-- `keywords.is_builtin_type`. -/
def isBuiltinType (t : List Char) : Bool :=
  kwTypes.contains t || kwTypeModifiers.contains t

/-! ## More Python string helpers used by the builder -/

def pyLstrip (s : List Char) : List Char := s.dropWhile pyIsSpace

def pyStrip (s : List Char) : List Char :=
  ((s.dropWhile pyIsSpace).reverse.dropWhile pyIsSpace).reverse

/-- Python `s.strip(chars)`. -/
def pyStripChars (cs s : List Char) : List Char :=
  ((s.dropWhile (cs.contains ·)).reverse.dropWhile (cs.contains ·)).reverse

/-- Python `t in pat` (contiguous-substring test, used for checks such as
`token.name in '*&'`). -/
def isSubstr (t pat : List Char) : Bool :=
  (List.range (pat.length + 1)).any fun k => subAt t (pat.drop k)

/-- POSIX `os.path.join(a, b)` (only consumed by the `isfile` oracle, so the
absolute-path special case is irrelevant here). -/
def pyJoinPath (a b : List Char) : List Char := a ++ ['/'] ++ b

/-- Generic Python slice on token lists. -/
def pyListSlice {α : Type} (l : List α) (a b : Nat) : List α :=
  (l.take b).drop a

/-! ## AST nodes (cpp/ast.py lines 50-388) -/

/-- Template-parameter maps (`templated_types` dicts) are opaque to every
code path embedded here; only their presence matters. -/
abbrev TemplMap := List (List Char × List Tok)

inductive CKind where
  | cls
  | strct
  | unon
deriving DecidableEq, Repr

mutual
/-- `Type` (ast.py lines 341-388).  `name` is `Option` because Python can
pass `None`, and a `PName` because `_get_class`/`handle_enum` can pass a
whole node as the type name of an anonymous class/enum variable. -/
inductive PType where
  | mk (start stop : Nat) (name : Option PName) (templatedTypes : List PType)
      (modifiers : List (List Char)) (reference pointer array : Bool)

inductive PName where
  | str (s : List Char)
  | node (n : PNode)

/-- The node variants of cpp/ast.py reached by the embedded code paths.
`functionNode` stands for both `Function` and `Method` (`Method` subclasses
`Function`); function/method construction itself is a collaborator. -/
inductive PNode where
  | includeNode (start stop : Nat) (filename : List Char) (system : Bool)
  | defineNode (start stop : Nat) (name defn : List Char)
  | usingNode (start stop : Nat) (names : List Tok)
  | typedefNode (start stop : Nat) (name : Option PName) (aliasTypes : List PType)
      (ns : List (Option (List Char)))
  | enumNode (start stop : Nat) (name : Option (List Char))
      (fields : Option (List Tok)) (ns : List (Option (List Char)))
  | classNode (kind : CKind) (start stop : Nat) (name : Option PName)
      (bases : Option (List PType)) (templatedTypes : Option TemplMap)
      (body : Option (List PNode)) (ns : List (Option (List Char)))
  | variableDecl (start stop : Nat) (name : List Char) (varType : PType)
      (initialValue : List Char) (ns : List (Option (List Char)))
  | functionNode (start stop : Nat) (name : List Char)
      (body : Option (List Tok)) (initializers : List (Tok × List Tok))
end

/-- Python truthiness of a `Type`/`Typedef` name value
(`None` and `''` are falsy, nodes and non-empty strings truthy). -/
def pyFalsyName : Option PName → Bool
  | none => true
  | some (.str []) => true
  | some (.str (_ :: _)) => false
  | some (.node _) => false

/-- `Type.__init__` (lines 345-361), including the
`if not name and modifiers: self.name = modifiers.pop()` fixup. -/
def mkPType (start stop : Nat) (name : Option PName)
    (templatedTypes : List PType) (modifiers : List (List Char))
    (reference pointer array : Bool) : PType :=
  if pyFalsyName name then
    match modifiers.getLast? with
    | some m =>
      .mk start stop (some (.str m)) templatedTypes modifiers.dropLast
        reference pointer array
    | none => .mk start stop name templatedTypes modifiers reference pointer
        array
  else .mk start stop name templatedTypes modifiers reference pointer array

def ptypeName : PType → Option PName
  | .mk _ _ n _ _ _ _ _ => n

def ptypeModifiers : PType → List (List Char)
  | .mk _ _ _ _ m _ _ _ => m

/-- `is_declaration` per node variant: only `Class` (line 255) and
`Function` (line 298) override the `Node` default `False` — in particular
`Enum` does *not*. -/
def isDeclaration : PNode → Bool
  | .classNode _ _ _ _ bases _ body _ => bases.isNone && body.isNone
  | .functionNode _ _ _ body _ => body.isNone
  | _ => false

/-- `is_definition` per node variant (`Typedef` line 218, `Enum` line 235,
`Class` line 258, `Function` line 301; the `Node` default is `False`). -/
def isDefinition : PNode → Bool
  | .classNode _ _ _ _ bases _ body _ => !(bases.isNone && body.isNone)
  | .enumNode _ _ _ _ _ => true
  | .typedefNode _ _ _ _ _ => true
  | .functionNode _ _ _ body _ => body.isSome
  | _ => false

/-! ## Builder state and plumbing (ast.py lines 634-941) -/

inductive BErr where
  | parseError (offending : Option Tok) (msg : List Char)
  | assertionError
  | stopIteration
  | indexError
  | unmodelled
  | noFuel
deriving DecidableEq, Repr

/-- The mutable state of an `ASTBuilder` (lines 636-657); `toks` is the
effective upcoming-token sequence (see the section comment), `nsStack` and
`namespaces` are stacks with their tops at the head. -/
structure BSt where
  toks : List Tok
  nsStack : List (Option (List Char))
  namespaces : List Bool
  defines : List (List Char)
  handlingTypedef : Bool
  handlingConst : Bool
  inClass : Option (List Char)
deriving DecidableEq, Repr

def bindE {α β : Type} (x : Except BErr (α × BSt))
    (f : α → BSt → Except BErr (β × BSt)) : Except BErr (β × BSt) :=
  match x with
  | .error e => .error e
  | .ok (a, st) => f a st

/-- `_get_next_token` (lines 901-904). -/
def getNextToken (st : BSt) : Except BErr (Tok × BSt) :=
  match st.toks with
  | [] => .error .stopIteration
  | t :: r => .ok (t, { st with toks := r })

/-- `_add_back_token` (lines 906-907). -/
def addBackToken (t : Tok) (st : BSt) : BSt :=
  { st with toks := t :: st.toks }

/-- `_add_back_tokens` (lines 909-911). -/
def addBackTokens (ts : List Tok) (st : BSt) : BSt :=
  { st with toks := ts ++ st.toks }

/-- `assert_parse` (lines 1668-1671). -/
def assertParse (b : Bool) (offending : Option Tok) (msg : List Char)
    (st : BSt) : Except BErr (Unit × BSt) :=
  if b then .ok ((), st) else .error (.parseError offending msg)

/-- `_get_matching_char` (lines 880-893): consume up to and including the
token that balances the already-consumed `openC`. -/
def getMatchingChar (openC closeC : List Char) :
    Nat → Int → List Tok → BSt → Except BErr (List Tok × BSt)
  | 0, _, _, _ => .error .noFuel
  | fuel + 1, count, acc, st =>
    bindE (getNextToken st) fun token st =>
      let count' : Int :=
        if token.kind = .syn then
          if token.text = openC then count + 1
          else if token.text = closeC then count - 1
          else count
        else count
      if count' = 0 then .ok (acc ++ [token], st)
      else getMatchingChar openC closeC fuel count' (acc ++ [token]) st

def getMatching (openC closeC : List Char) (fuel : Nat) (st : BSt) :
    Except BErr (List Tok × BSt) :=
  getMatchingChar openC closeC fuel 1 [] st

/-- `_get_parameters` (lines 895-896). -/
def getParameters (fuel : Nat) (st : BSt) : Except BErr (List Tok × BSt) :=
  getMatching "(".toList ")".toList fuel st

/-- `get_scope` (lines 898-899). -/
def getScope (fuel : Nat) (st : BSt) : Except BErr (List Tok × BSt) :=
  getMatching "\x7b".toList "\x7d".toList fuel st

/-- The loop of `get_name` (lines 913-941), stream version. -/
def getNameLoop :
    Nat → List Tok → Bool → BSt → Except BErr ((List Tok × Tok) × BSt)
  | 0, _, _, _ => .error .noFuel
  | fuel + 1, tokens, lastWasName, st =>
    bindE (getNextToken st) fun nextTok st =>
      if nextTok.kind = .name ∨
          (nextTok.kind = .syn ∧
            (nextTok.text = "::".toList ∨ nextTok.text = "<".toList)) then
        if lastWasName ∧ nextTok.kind = .name then .ok ((tokens, nextTok), st)
        else
          if nextTok.text = "<".toList then
            bindE (getMatching "<".toList ">".toList fuel st) fun more st =>
              getNameLoop fuel (tokens ++ [nextTok] ++ more) true st
          else
            getNameLoop fuel (tokens ++ [nextTok]) (nextTok.kind = .name) st
      else .ok ((tokens, nextTok), st)

/-- `get_name()` (no sequence argument). -/
def getNameM (fuel : Nat) (st : BSt) : Except BErr ((List Tok × Tok) × BSt) :=
  getNameLoop fuel [] false st

/-- The loop of `_get_var_tokens_up_to` (lines 847-875); the bracket
counters are Python ints and may go negative. -/
def gvtLoop (expected : List (List Char)) :
    Nat → Bool → List Tok → Int → Int → Tok → BSt →
    Except BErr ((List Tok × Tok) × BSt)
  | 0, _, _, _, _, _, _ => .error .noFuel
  | fuel + 1, skipBracket, tokens, count1, count2, lastToken, st =>
    if count1 = 0 ∧ count2 = 0 ∧ lastToken.kind = .syn ∧
        expected.contains lastToken.text then
      .ok ((tokens, lastToken), st)
    else
      let count1' : Int :=
        if lastToken.text = "[".toList then count1 + 1
        else if lastToken.text = "]".toList then count1 - 1
        else count1
      let skipBracket' : Bool :=
        if skipBracket ∧ count1' = 0 ∧ lastToken.text = "operator".toList
        then false else skipBracket
      let count2' : Int :=
        if skipBracket ∧ count1' = 0 then
          if lastToken.text = "operator".toList then count2
          else if lastToken.text = "<".toList then count2 + 1
          else if lastToken.text = ">".toList then count2 - 1
          else count2
        else count2
      let tokens' :=
        if lastToken.kind ≠ .preproc then tokens ++ [lastToken] else tokens
      bindE (getNextToken st) fun temp st =>
        if temp.text = "(".toList ∧ st.defines.contains lastToken.text then
          bindE (getParameters fuel st) fun _ st =>
          bindE (getNextToken st) fun temp2 st =>
            gvtLoop expected fuel skipBracket' tokens' count1' count2' temp2 st
        else gvtLoop expected fuel skipBracket' tokens' count1' count2' temp st

/-- `_get_var_tokens_up_to` (lines 847-875). -/
def getVarTokensUpTo (fuel : Nat) (skipBracket : Bool)
    (expected : List (List Char)) (st : BSt) :
    Except BErr ((List Tok × Tok) × BSt) :=
  bindE (getNextToken st) fun lastToken st =>
    gvtLoop expected fuel skipBracket [] 0 0 lastToken st

/-- `_get_tokens_up_to` (lines 823-825). -/
def getTokensUpTo (fuel : Nat) (expected : List Char) (st : BSt) :
    Except BErr (List Tok × BSt) :=
  bindE (getVarTokensUpTo fuel false [expected] st) fun r st => .ok (r.1, st)

/-! ## `TypeConverter` (ast.py lines 391-475) -/

/-- `_get_template_end`'s loop (lines 396-406). -/
def gteLoop (tokens : List Tok) : Nat → Nat → Nat → Nat
  | 0, _, endI => endI
  | fuel + 1, count, endI =>
    if count ≠ 0 ∧ endI < tokens.length then
      match tokens[endI]? with
      | none => endI
      | some token =>
        let count' :=
          if token.text = "<".toList then count + 1
          else if token.text = ">".toList then count - 1
          else count
        gteLoop tokens fuel count' (endI + 1)
    else endI

/-- `_get_template_end(tokens, start)`: `(tokens[start:end-1], end)`. -/
def getTemplateEnd (tokens : List Tok) (start : Nat) : List Tok × Nat :=
  let endI := gteLoop tokens (tokens.length + 1) 1 start
  (pyListSlice tokens start (endI - 1), endI)

/-- The loop state of `to_type` (lines 417-422). -/
structure ToTypeSt where
  result : List PType
  nameTokens : List Tok
  reference : Bool
  pointer : Bool
  array : Bool
  insideArray : Bool
  emptyArray : Bool
  templatedTokens : List Tok

/-- The `add_type` closure of `to_type` (lines 424-443); `toTypeF` is the
recursive call used for the buffered template argument tokens. -/
def addType (toTypeF : List Tok → List PType) (s : ToTypeSt) : ToTypeSt :=
  match s.nameTokens with
  | [] => s
  | t0 :: rest =>
    let modifiers :=
      ((t0 :: rest).filter fun t => isKeyword t.text).map Tok.text
    let names :=
      ((t0 :: rest).filter fun t => !isKeyword t.text).map Tok.text
    let name := names.foldl (· ++ ·) []
    let tlast := ((t0 :: rest).getLast?).getD t0
    { s with
      result := s.result ++
        [mkPType t0.start tlast.stop (some (.str name))
          (toTypeF s.templatedTokens) modifiers s.reference s.pointer
          s.array]
      nameTokens := []
      templatedTokens := [] }

/-- The scan loop of `to_type` (lines 445-472). -/
def toTypeLoop (toTypeF : List Tok → List PType) (tokens : List Tok) :
    Nat → Nat → ToTypeSt → ToTypeSt
  | 0, _, s => s
  | fuel + 1, i, s =>
    if i < tokens.length then
      match tokens[i]? with
      | none => s
      | some token =>
        if token.text = "]".toList then
          let s1 := { s with insideArray := false }
          let s2 :=
            if s1.emptyArray then { s1 with pointer := true }
            else { s1 with array := true }
          toTypeLoop toTypeF tokens fuel (i + 1) s2
        else if s.insideArray then
          toTypeLoop toTypeF tokens fuel (i + 1) { s with emptyArray := false }
        else if token.text = "<".toList then
          let te := getTemplateEnd tokens (i + 1)
          toTypeLoop toTypeF tokens fuel te.2 { s with templatedTokens := te.1 }
        else if token.text = ",".toList ∨ token.text = "(".toList then
          let s1 := addType toTypeF s
          toTypeLoop toTypeF tokens fuel (i + 1)
            { s1 with reference := false
                      pointer := false
                      array := false
                      emptyArray := true }
        else if token.text = "*".toList then
          toTypeLoop toTypeF tokens fuel (i + 1) { s with pointer := true }
        else if token.text = "&".toList then
          toTypeLoop toTypeF tokens fuel (i + 1) { s with reference := true }
        else if token.text = "[".toList then
          toTypeLoop toTypeF tokens fuel (i + 1) { s with insideArray := true }
        else if token.text ≠ ")".toList then
          toTypeLoop toTypeF tokens fuel (i + 1)
            { s with nameTokens := s.nameTokens ++ [token] }
        else toTypeLoop toTypeF tokens fuel (i + 1) s
    else s

/-- `to_type` (lines 408-475), recursion driven by a fuel that dominates
the nesting depth of template argument lists. -/
def toType : Nat → List Tok → List PType
  | 0, _ => []
  | fuel + 1, tokens =>
    let final := toTypeLoop (toType fuel) tokens (tokens.length + 1) 0
      ⟨[], [], false, false, false, false, true, []⟩
    (addType (toType fuel) final).result

def toTypeF (tokens : List Tok) : List PType :=
  toType (tokens.length + 1) tokens

/-! ## Collaborators (function/method/variable construction and the nested
class-body builder) -/

/-- The builder collaborators that the claims treat as opaque:
`_get_method` (with its `get_paren` flag and modifier bit-set),
`get_method`, `_get_variable`, the nested `ASTBuilder(...).generate()`
used for class bodies, and the filesystem probe plus search paths used by
the `#include` handler. -/
structure Collab where
  getMethod : List Tok → Nat → Option TemplMap → Bool → BSt →
    Except BErr (PNode × BSt)
  getMethodPub : Nat → Option TemplMap → BSt → Except BErr (PNode × BSt)
  getVariable : List Tok → BSt → Except BErr (PNode × BSt)
  genBody : Option (List Char) → List (Option (List Char)) → List Tok →
    Except BErr (List PNode)
  isfile : List Char → Bool
  systemIncludes : List (List Char)
  nonsystemIncludes : List (List Char)

/-- `_create_variable` (lines 682-694).  `refSeq` models
`ref_pointer_name_seq`; the embedded call sites pass `''` (here `[]`) or a
single token text, for which Python's substring test coincides with this
per-element containment test. -/
def createVariable (st : BSt) (posToken : Tok) (name : List Char)
    (typeName : Option PName) (typeModifiers : List (List Char))
    (refSeq : List (List Char)) (templatedTypes : List PType)
    (value : List Char) : PNode :=
  .variableDecl posToken.start posToken.stop name
    (mkPType posToken.start posToken.stop typeName templatedTypes
      typeModifiers (refSeq.any fun s => s.contains '&')
      (refSeq.any fun s => s.contains '*')
      (refSeq.any fun s => s.contains '['))
    value st.nsStack

/-! ## `handle_using`, `handle_namespace`, `handle_enum`
(ast.py lines 1250-1299, 1603-1636) -/

/-- `handle_using` (lines 1622-1636): a `using namespace` marker becomes a
`Using` node, the alias form is returned as a `Typedef` node; note the bare
`assert tokens` (line 1624). -/
def handleUsing (fuel : Nat) (st : BSt) : Except BErr (Option PNode × BSt) :=
  bindE (getTokensUpTo fuel ";".toList st) fun tokens st =>
    match tokens with
    | [] => .error .assertionError
    | t0 :: _ =>
      match toTypeF tokens with
      | [] => .error .indexError
      | ty0 :: _ =>
        if (ptypeModifiers ty0).contains "namespace".toList then
          .ok (some (.usingNode t0.start t0.stop tokens), st)
        else
          .ok (some (.typedefNode t0.start t0.stop (ptypeName ty0)
            (toTypeF tokens) st.nsStack), st)

/-- The tail of `handle_namespace` once the optional name token has been
read (lines 1610-1620). -/
def handleNamespaceTail (fuel : Nat) (name : Option (List Char))
    (token : Tok) (st : BSt) : Except BErr (Option PNode × BSt) :=
  bindE (assertParse (token.kind = .syn) (some token)
      "expected syntax token".toList st) fun _ st =>
  if token.text = "=".toList then
    bindE (getNameM fuel st) fun nt st =>
    bindE (assertParse (nt.2.text = ";".toList) (some nt.2)
        "expected semicolon".toList st) fun _ st =>
    .ok (none, st)
  else
    bindE (assertParse (token.text = "\x7b".toList) (some token)
        "expected open brace".toList st) fun _ st =>
    .ok (none, { st with nsStack := name :: st.nsStack
                         namespaces := true :: st.namespaces })

/-- `handle_namespace` (lines 1603-1620). -/
def handleNamespace (fuel : Nat) (st : BSt) :
    Except BErr (Option PNode × BSt) :=
  bindE (getNextToken st) fun token st =>
  if token.kind = .name then
    bindE (getNextToken st) fun token2 st =>
      handleNamespaceTail fuel (some token.text) token2 st
  else handleNamespaceTail fuel none token st

/-- Lines 1274-1299 of `handle_enum`: underlying type, forward
declaration, enum body, anonymous-enum variable. -/
def handleEnumRest (fuel : Nat) (name : Option (List Char)) (token : Tok)
    (st : BSt) : Except BErr (Option PNode × BSt) :=
  bindE
    (if token.kind = .syn ∧ token.text = ":".toList then
      bindE (getVarTokensUpTo fuel false ["\x7b".toList, ";".toList] st)
        fun r st => .ok (r.2, st)
    else .ok (token, st)) fun token st =>
  if token.kind = .syn ∧ token.text = ";".toList then
    -- forward declaration
    .ok (some (.enumNode token.start token.stop name none st.nsStack), st)
  else if token.kind = .syn ∧ token.text = "\x7b".toList then
    bindE (getMatching "\x7b".toList "\x7d".toList fuel st) fun fields st =>
    bindE (getNextToken st) fun nextItem st =>
    let newType : PNode :=
      .enumNode token.start token.stop name (some fields.dropLast) st.nsStack
    if nextItem.kind ≠ .name then .ok (some newType, st)
    else
      .ok (some (createVariable st nextItem nextItem.text
        (some (.node newType)) [] [] [] []), st)
  else
    bindE (assertParse (token.kind = .name) (some token)
        "expected name".toList st) fun _ st =>
    .ok (some (createVariable st token token.text (name.map PName.str)
      [] [] [] []), st)

/-- `handle_enum` (lines 1250-1299). -/
def handleEnum (collab : Collab) (fuel : Nat) (st : BSt) :
    Except BErr (Option PNode × BSt) :=
  bindE (getNextToken st) fun token st =>
  let st := if token.text ≠ "class".toList then addBackToken token st else st
  bindE (getNameM fuel st) fun nt st =>
  let nameTokens := nt.1
  let token := nt.2
  let name : Option (List Char) :=
    if nameTokens = [] then none
    else some ((nameTokens.map Tok.text).foldl (· ++ ·) [])
  if token.kind = .name then
    if st.handlingTypedef then
      .ok (some (.enumNode token.start token.stop name none st.nsStack),
        addBackToken token st)
    else
      bindE (getNextToken st) fun nextToken st =>
      if nextToken.text ≠ "(".toList then
        handleEnumRest fuel name token (addBackToken nextToken st)
      else
        bindE (collab.getMethod (nameTokens ++ [token]) 0 none false st)
          fun nd st => .ok (some nd, st)
  else handleEnumRest fuel name token st

/-! ## `_get_bases` and `_get_class` (ast.py lines 1457-1601) -/

def baseSpecifiers : List (List Char) :=
  ["public", "protected", "private", "virtual"].map String.toList

/-- The `while next_token.token_type == PREPROCESSOR` skip of
lines 1486-1487. -/
def skipPreprocToks : Nat → Tok → BSt → Except BErr (Tok × BSt)
  | 0, _, _ => .error .noFuel
  | fuel + 1, token, st =>
    if token.kind = .preproc then
      bindE (getNextToken st) fun token2 st => skipPreprocToks fuel token2 st
    else .ok (token, st)

/-- `_get_bases` (lines 1457-1491); loops until the opening `{` of the
class body is reached. -/
def getBases (fuel : Nat) : Nat → List PType → BSt →
    Except BErr ((List PType × Tok) × BSt)
  | 0, _, _ => .error .noFuel
  | loopFuel + 1, bases, st =>
    bindE (getNextToken st) fun token st =>
    if baseSpecifiers.contains token.text ∨ token.kind = .preproc then
      getBases fuel loopFuel bases st
    else
      let st := addBackToken token st
      bindE (getNameM fuel st) fun nt st =>
      bindE
        (if nt.1.length > 2 ∧
            ((nt.1.get? (nt.1.length - 2)).map Tok.text) = some "::".toList ∧
            nt.2.kind = .name ∧ ¬ baseSpecifiers.contains nt.2.text then
          let st := addBackToken nt.2 st
          bindE (getNameM fuel st) fun nt2 st =>
            .ok ((nt.1.dropLast ++ nt2.1, nt2.2), st)
        else .ok ((nt.1, nt.2), st)) fun bn st =>
      let bases' :=
        match toTypeF bn.1 with
        | [b] => bases ++ [b]
        | _ => bases
      bindE
        (if bn.2.text = ")".toList then getNextToken st
         else .ok (bn.2, st)) fun nextToken st =>
      bindE (skipPreprocToks loopFuel nextToken st) fun nextToken st =>
      if nextToken.text = "\x7b".toList then .ok ((bases', nextToken), st)
      else getBases fuel loopFuel bases' st

/-- The constructor-initializer back-patch of `_get_class`
(lines 1556-1575): find the first `Function` member named like the class
and copy its single-token initializer values onto the matching sibling
`VariableDeclaration`s. -/
def isFunctionNamed (className : Option PName) : PNode → Bool
  | .functionNode _ _ nm _ _ =>
    match className with
    | some (.str s) => nm = s
    | _ => false
  | _ => false

def patchVar (inits : List (Tok × List Tok)) : PNode → PNode
  | .variableDecl s e nm ty iv ns =>
    .variableDecl s e nm ty
      (inits.foldl (fun acc kv =>
        if kv.2.length = 1 ∧ nm = kv.1.text then
          ((kv.2.head?).map Tok.text).getD acc
        else acc) iv) ns
  | n => n

def backPatchCtor (className : Option PName) (body : List PNode) :
    List PNode :=
  match body.find? (isFunctionNamed className) with
  | none => body
  | some ctor =>
    match ctor with
    | .functionNode _ _ _ _ inits => body.map (patchVar inits)
    | _ => body

/-- Lines 1546-1601 of `_get_class`: the class body (via a nested builder
instance), the back-patch, the trailing `;` or anonymous-instance variable,
and the final node construction. -/
def getClassBody (collab : Collab) (fuel : Nat) (kind : CKind)
    (templatedTypes : Option TemplMap) (classToken : Tok)
    (className : Option PName) (nameTokens : List Tok)
    (bases : Option (List PType)) (token : Tok) (st : BSt) :
    Except BErr (Option PNode × BSt) :=
  if token.kind = .syn ∧ token.text = "\x7b".toList then
    bindE (getScope fuel st) fun scope st =>
    match collab.genBody
        (some (match className with
          | some (.str (c :: cs)) => c :: cs
          | _ => "__unamed__".toList))
        st.nsStack scope with
    | .error e => .error e
    | .ok body0 =>
      let body := backPatchCtor className body0
      if ¬ st.handlingTypedef then
        bindE (getNextToken st) fun token st =>
        if token.kind ≠ .name then
          bindE (assertParse (token.kind = .syn) (some token)
              "expected syntax token".toList st) fun _ st =>
          bindE (assertParse (token.text = ";".toList) (some token)
              "expected semicolon".toList st) fun _ st =>
          .ok (some (.classNode kind classToken.start classToken.stop
            className bases templatedTypes (some body) st.nsStack), st)
        else
          bindE
            (if isBuiltinType token.text then getNextToken st
             else .ok (token, st)) fun token st =>
          bindE (getTokensUpTo fuel ";".toList st) fun _ st =>
          let newClass : PNode := .classNode kind classToken.start
            classToken.stop className bases none (some body) st.nsStack
          .ok (some (createVariable st classToken token.text
            (some (.node newClass))
            (if st.handlingConst then ["const".toList] else [])
            [token.text] [] []), st)
      else
        .ok (some (.classNode kind classToken.start classToken.stop className
          bases templatedTypes (some body) st.nsStack), st)
  else
    if ¬ st.handlingTypedef then
      bindE (collab.getMethod ([classToken] ++ nameTokens) 0 none false st)
        fun nd st => .ok (some nd, st)
    else
      let st := addBackToken token st
      .ok (some (.classNode kind classToken.start classToken.stop className
        bases templatedTypes none st.nsStack), st)

/-- Lines 1519-1544 of `_get_class`: preprocessor skip, forward
declaration, inline `*`/`&` declaration, base-class list. -/
def getClassTail (collab : Collab) (fuel : Nat) (kind : CKind)
    (templatedTypes : Option TemplMap) (classToken : Tok)
    (className : Option PName) (nameTokens : List Tok) (token : Tok)
    (st : BSt) : Except BErr (Option PNode × BSt) :=
  bindE
    (if token.kind = .preproc then getNextToken st
     else .ok (token, st)) fun token st =>
  if token.kind = .syn ∧ token.text = ";".toList then
    -- forward declaration
    .ok (some (.classNode kind classToken.start classToken.stop className
      none templatedTypes none st.nsStack), st)
  else if token.kind = .syn ∧ isSubstr token.text "*&".toList then
    -- inline forward declaration: data member or method
    bindE (getNextToken st) fun nameToken st =>
    bindE (getNextToken st) fun nextToken st =>
    if nextToken.text = ";".toList then
      .ok (some (createVariable st classToken nameToken.text className
        ["class".toList] [token.text] [] []), st)
    else
      let st := addBackTokens [classToken, token, nameToken, nextToken] st
      bindE (collab.getMethodPub 0 none st) fun nd st => .ok (some nd, st)
  else if token.kind = .syn ∧ token.text = ":".toList then
    bindE (getBases fuel fuel [] st) fun bt st =>
      getClassBody collab fuel kind templatedTypes classToken className
        nameTokens (some bt.1) bt.2 st
  else
    getClassBody collab fuel kind templatedTypes classToken className
      nameTokens none token st

/-- `_get_class` (lines 1493-1601). -/
def getClass (collab : Collab) (fuel : Nat) (kind : CKind)
    (templatedTypes : Option TemplMap) (st : BSt) :
    Except BErr (Option PNode × BSt) :=
  bindE (getNextToken st) fun classToken st =>
  if classToken.kind ≠ .name then
    bindE (assertParse (classToken.kind = .syn) (some classToken)
        "expected syntax token".toList st) fun _ st =>
      getClassTail collab fuel kind templatedTypes classToken none []
        classToken st
  else
    let st := addBackToken classToken st
    bindE (getNameM fuel st) fun nt st =>
    bindE
      (if st.handlingTypedef then
        if isSubstr nt.2.text "*&".toList then
          bindE (getNextToken st) fun token2 st =>
            .ok ((nt.1 ++ [nt.2], token2), st)
        else .ok ((nt.1, nt.2), st)
      else if nt.2.kind = .name then
        let st := addBackToken nt.2 st
        bindE (getNameM fuel st) fun nta st =>
          match nta.1 with
          | [] => .error .indexError
          | a0 :: arest =>
            if (a0 :: arest).length > 1 ∨ a0.text ≠ "final".toList then
              .ok ((a0 :: arest, nta.2), st)
            else .ok ((nt.1, nta.2), st)
      else .ok ((nt.1, nt.2), st)) fun ntt st =>
    match toTypeF ntt.1 with
    | [] => .error .indexError
    | ty0 :: _ =>
      bindE (assertParse (!pyFalsyName (ptypeName ty0)) (some classToken)
          "expected class name".toList st) fun _ st =>
        getClassTail collab fuel kind templatedTypes classToken
          (ptypeName ty0) ntt.1 ntt.2 st

/-- `_handle_class_and_struct` (lines 1229-1247). -/
def handleClassStruct (collab : Collab) (fuel : Nat) (kind : CKind)
    (st : BSt) : Except BErr (Option PNode × BSt) :=
  if st.handlingTypedef then getClass collab fuel kind none st
  else
    bindE (getNameM fuel st) fun nt st =>
    if nt.2.kind = .name ∨ isSubstr nt.2.text "*&".toList then
      bindE (getVarTokensUpTo fuel false
          ["(".toList, ";".toList, "\x7b".toList] st) fun r st =>
      let tokens := nt.1 ++ [nt.2] ++ r.1
      if r.2.text = "\x7b".toList then
        let st := addBackToken r.2 st
        let st := addBackTokens tokens st
        getClass collab fuel kind none st
      else if r.2.text = "(".toList then
        bindE (collab.getMethod tokens 0 none false st) fun nd st =>
          .ok (some nd, st)
      else
        bindE (collab.getVariable tokens st) fun nd st => .ok (some nd, st)
    else
      let st := addBackToken nt.2 st
      let st := addBackTokens nt.1 st
      getClass collab fuel kind none st

/-! ## The preprocessor-directive handler of `_generate_one`
(ast.py lines 760-821) -/

/-- The `#include` handler (lines 764-790): note the `os.path.isfile`
probes over the two search-path lists — the `system` flag and `filename`
depend on the filesystem whenever the search-path lists are non-empty. -/
def handleInclude (isfile : List Char → Bool)
    (systemIncludes nonsystemIncludes : List (List Char)) (token : Tok) :
    Except BErr PNode :=
  let name1 := pyStrip ((pyLstrip (token.text.drop 1)).drop 7)
  if name1 = [] then .error .assertionError
  else
    let name :=
      if subAt ['\\'] name1 then pyStrip (name1.drop 1) else name1
    let filename := pyStripChars "<>\"".toList name
    if systemIncludes.any (fun d => isfile (pyJoinPath d filename)) then
      .ok (.includeNode token.start token.stop filename true)
    else if nonsystemIncludes.any (fun d => isfile (pyJoinPath d filename))
    then
      .ok (.includeNode token.start token.stop filename false)
    else
      match name with
      | [] => .error .indexError
      | c0 :: _ =>
        if c0 = '<' ∨ c0 = '"' then
          match name.getLast? with
          | none => .error .indexError
          | some cl =>
            if cl = '>' ∨ cl = '"' then
              .ok (.includeNode token.start token.stop
                ((name.drop 1).dropLast) (c0 = '<'))
            else .error (.parseError (some token) "bad include form".toList)
        else .ok (.includeNode token.start token.stop name true)

/-- The scan loop of the `#define` handler (lines 799-812): split the
directive text into macro name and replacement, recording function-like
macro names. -/
def defineSplitGo (name : List Char) :
    Nat → Nat → Nat → List Char × List Char × Bool
  | 0, _, _ => (name, [], false)
  | fuel + 1, i, paren =>
    match name[i]? with
    | none => (name, [], false)
    | some c =>
      if paren = 0 ∧ pyIsSpace c then (name.take i, pyLstrip (name.drop i),
        false)
      else if c = ')' then (name.take paren, pyLstrip (name.drop (i + 1)),
        true)
      else if c = '(' then defineSplitGo name fuel (i + 1) i
      else defineSplitGo name fuel (i + 1) paren

/-- The `#define` handler (lines 791-815). -/
def handleDefine (token : Tok) (st : BSt) :
    Except BErr (Option PNode × BSt) :=
  let name1 := pyStrip ((pyLstrip (token.text.drop 1)).drop 6)
  if name1 = [] then .error .assertionError
  else
    let name :=
      if subAt ['\\'] name1 then pyStrip (name1.drop 1) else name1
    let r := defineSplitGo name (name.length + 1) 0 0
    let value :=
      if subAt ['\\'] r.2.1 then pyStrip (r.2.1.drop 1) else r.2.1
    let st := if r.2.2 then { st with defines := st.defines ++ [r.1] } else st
    .ok (some (.defineNode token.start token.stop r.1 value), st)

/-- The preprocessor arm of `_generate_one` (lines 760-821). -/
def handleDirective (collab : Collab) (token : Tok) (st : BSt) :
    Except BErr (Option PNode × BSt) :=
  let name := pyLstrip (token.text.drop 1)
  if subAt "include".toList name then
    match handleInclude collab.isfile collab.systemIncludes
        collab.nonsystemIncludes token with
    | .error e => .error e
    | .ok nd => .ok (some nd, st)
  else if subAt "define".toList name then handleDefine token st
  else if subAt "undef".toList name then
    let nm := pyStrip (name.drop 5)
    if nm = [] then .error .assertionError
    else .ok (none, { st with defines := st.defines.filter (· ≠ nm) })
  else .ok (none, st)

/-! ## `_generate_one` dispatch and the `generate` loop
(ast.py lines 659-821) -/

/-- The keyword handlers that exist in the Python class but whose bodies
are collaborators here (not needed by any claim). -/
def unmodelledHandlers : List (List Char) :=
  ["virtual", "friend", "typedef", "typename", "template", "explicit"].map
    String.toList

/-- `_generate_one` (lines 696-821), restricted to the keyword handlers the
claims exercise; a keyword with no `handle_...` method makes the
`assert_parse(method, ...)` at line 701 raise `ParseError`. -/
def generateOne (collab : Collab) :
    Nat → Tok → BSt → Except BErr (Option PNode × BSt)
  | 0, _, _ => .error .noFuel
  | fuel + 1, token, st =>
    if token.kind = .name then
      if isKeyword token.text ∧ ¬ isBuiltinType token.text then
        if token.text = "class".toList then
          handleClassStruct collab fuel CKind.cls st
        else if token.text = "struct".toList then
          handleClassStruct collab fuel CKind.strct st
        else if token.text = "union".toList then
          handleClassStruct collab fuel CKind.unon st
        else if token.text = "enum".toList then handleEnum collab fuel st
        else if token.text = "namespace".toList then handleNamespace fuel st
        else if token.text = "using".toList then handleUsing fuel st
        else if token.text = "public".toList ∨
            token.text = "protected".toList ∨
            token.text = "private".toList then
          bindE (assertParse st.inClass.isSome none
              "expected to be in a class".toList st) fun _ st =>
            .ok (none, st)
        else if token.text = "inline".toList ∨ token.text = "extern".toList ∨
            token.text = "operator".toList then
          .ok (none, st)
        else if token.text = "const".toList then
          bindE (getNextToken { st with handlingConst := true })
            fun t2 st2 =>
          bindE (generateOne collab fuel t2 st2) fun nd st3 =>
            .ok (nd, { st3 with handlingConst := false })
        else if unmodelledHandlers.contains token.text then
          .error .unmodelled
        else .error (.parseError none "unexpected token".toList)
      else .error .unmodelled
    else if token.kind = .syn then
      if token.text = "~".toList ∧ st.inClass.isSome then
        bindE (getNextToken st) fun t2 st =>
        bindE (collab.getMethod [t2] 16 none true st) fun nd st =>
          .ok (some nd, st)
      else .ok (none, st)
    else if token.kind = .preproc then handleDirective collab token st
    else .ok (none, st)

/-- `generate` (lines 659-680): the top-level pull loop with the
brace-driven namespace bookkeeping and the per-token `StopIteration`
catch. -/
def generateLoop (collab : Collab) :
    Nat → BSt → List PNode → Except BErr (List PNode × BSt)
  | 0, _, _ => .error .noFuel
  | fuel + 1, st, acc =>
    match st.toks with
    | [] => .ok (acc, st)
    | token :: rest =>
      let st1 : BSt := { st with toks := rest }
      if token.text = "\x7b".toList then
        generateLoop collab fuel
          { st1 with namespaces := false :: st1.namespaces } acc
      else if token.text = "\x7d".toList then
        match st1.namespaces with
        | [] => generateLoop collab fuel st1 acc
        | b :: nr =>
          if b then
            generateLoop collab fuel
              { st1 with namespaces := nr
                         nsStack := st1.nsStack.tail } acc
          else generateLoop collab fuel { st1 with namespaces := nr } acc
      else
        match generateOne collab fuel token st1 with
        | .error .stopIteration => .ok (acc, st1)
        | .error e => .error e
        | .ok (some node, st2) => generateLoop collab fuel st2 (acc ++ [node])
        | .ok (none, st2) => generateLoop collab fuel st2 acc

/-- A collaborator pack whose `genBody` really runs a nested builder over
the class-body token range (as `_get_class` lines 1549-1554 do), to depth
`n`; everything else is opaque. -/
def noCollab : Collab :=
  { getMethod := fun _ _ _ _ _ => .error .unmodelled
    getMethodPub := fun _ _ _ => .error .unmodelled
    getVariable := fun _ _ => .error .unmodelled
    genBody := fun _ _ _ => .error .unmodelled
    isfile := fun _ => false
    systemIncludes := []
    nonsystemIncludes := [] }

def collabN : Nat → Collab
  | 0 => noCollab
  | n + 1 =>
    { noCollab with
      genBody := fun inClass ns toks =>
        match generateLoop (collabN n) (4 * toks.length + 16)
            ⟨toks, ns, [false], [], false, false, inClass⟩ [] with
        | .ok (nodes, _) => .ok nodes
        | .error e => .error e }

/-- Run the builder on a token list, as `builder_from_source` +
`list(generate())` would. -/
def runBuilder (depth fuel : Nat) (toks : List Tok) :
    Except BErr (List PNode × BSt) :=
  generateLoop (collabN depth) fuel
    ⟨toks, [], [], [], false, false, none⟩ []

/-- The node list of a builder run (what `list(generate())` returns). -/
def builderNodes (depth fuel : Nat) (toks : List Tok) :
    Except BErr (List PNode) :=
  match runBuilder depth fuel toks with
  | .ok (nodes, _) => .ok nodes
  | .error e => .error e

/-- A builder run with an explicit collaborator pack, from a fresh
top-level state. -/
def runBuilderWith (collab : Collab) (fuel : Nat) (toks : List Tok) :
    Except BErr (List PNode × BSt) :=
  generateLoop collab fuel ⟨toks, [], [], [], false, false, none⟩ []

/-- The `system` flags of the `Include` nodes of a builder run. -/
def includeSystemFlags (r : Except BErr (List PNode × BSt)) : List Bool :=
  match r with
  | .ok (nodes, _) =>
    nodes.filterMap fun n =>
      match n with
      | .includeNode _ _ _ sys => some sys
      | _ => none
  | .error _ => []

/-! ## The `#if 0` suppression property: grammars and the step relation -/

/-- A run of whitespace characters. -/
def WsRun (sp : List Char) : Prop := ∀ c ∈ sp, pyIsSpace c = true

/-- A plain identifier word: tokenized as a single NAME token. -/
def WordOk (w : List Char) : Prop :=
  w ≠ [] ∧ ∀ c ∈ w, identFirstChar c = true ∧ pyIsSpace c = false

def WordsOk (l : List (List Char)) : Prop := ∀ w ∈ l, WordOk w

/-- A character that terminates an identifier scan without starting a
quoted literal. -/
def GoodFollow : List Char → Prop
  | [] => False
  | d :: _ => identChar d = false ∧ d ≠ squote ∧ d ≠ '"'

/-- Words rendered with one separating space before each word. -/
def renderWordsB : List (List Char) → List Char
  | [] => []
  | w :: r => ' ' :: (w ++ renderWordsB r)

/-- The NAME tokens of a rendered word list starting at offset `i`. -/
def wordToksB : List (List Char) → Nat → List Tok
  | [], _ => []
  | w :: r, i =>
    ⟨.name, w, i + 1, i + 1 + w.length⟩ :: wordToksB r (i + 1 + w.length)

/-- The text of an `#if 0` line and of an `#endif` line. -/
def ifLine : List Char := ['#', 'i', 'f', ' ', '0', '\n']

def endifLine : List Char := ['#', 'e', 'n', 'd', 'i', 'f', '\n']

/-- One atom of a suppressed `#if 0` region: an unrecognized character, a
whitespace character, a nested `#if 0` opener, or a nested `#endif`. -/
inductive SAtom where
  | junk (c : Char)
  | wsa (c : Char)
  | ifm
  | endifm
deriving DecidableEq, Repr

def renderAtom : SAtom → List Char
  | .junk c => [c]
  | .wsa c => [c]
  | .ifm => ifLine
  | .endifm => endifLine

def renderAtoms : List SAtom → List Char
  | [] => []
  | a :: r => renderAtom a ++ renderAtoms r

/-- Validity of a suppressed region at relative nesting depth `d`: junk
characters are unrecognized, whitespace atoms are whitespace, and the
nested `#if`/`#endif` markers are balanced (ending at depth 0). -/
inductive OkAtoms : List SAtom → Nat → Prop where
  | nil : OkAtoms [] 0
  | junk {c : Char} {r : List SAtom} {d : Nat} :
      recognizedChar c = false → OkAtoms r d → OkAtoms (.junk c :: r) d
  | wsa {c : Char} {r : List SAtom} {d : Nat} :
      pyIsSpace c = true → OkAtoms r d → OkAtoms (.wsa c :: r) d
  | opn {r : List SAtom} {d : Nat} :
      OkAtoms r (d + 1) → OkAtoms (.ifm :: r) d
  | cls {r : List SAtom} {d : Nat} :
      OkAtoms r d → OkAtoms (.endifm :: r) (d + 1)

/-- The reflexive-transitive closure of the tokenizer step, recording the
yielded tokens. -/
inductive Steps : TkState → List Tok → TkState → Prop where
  | refl (st : TkState) : Steps st [] st
  | skip {st st1 st2 : TkState} {toks : List Tok} :
      tokStep st = .skip st1 → Steps st1 toks st2 → Steps st toks st2
  | yield {st st1 st2 : TkState} {t : Tok} {toks : List Tok} :
      tokStep st = .yield t st1 → Steps st1 toks st2 →
      Steps st (t :: toks) st2

/-- A C4-shape source: word prefix, `#if 0`, suppressed region, `#endif`,
word suffix, final newline. -/
def c4Source (P : List (List Char)) (R : List SAtom)
    (S : List (List Char)) : List Char :=
  renderWordsB P ++ ifLine ++ renderAtoms R ++ endifLine ++
    renderWordsB S ++ ['\n']

/-! ## Predicates for the class forward-declaration invariant -/

/-- Well-formedness of a builder input token: the tokenizer only ever
labels the text `{` as a SYNTAX token (`_get_bases` checks the text of the
class-body opener but not its kind, so this is the relevant shape). -/
def wfTok (t : Tok) : Bool :=
  if t.text = "\x7b".toList then t.kind == TokKind.syn else true

/-- All upcoming tokens of a builder state are well formed. -/
def WfToks (st : BSt) : Prop := ∀ t ∈ st.toks, wfTok t = true

/-- The invariant on one class-like node: `bases != None` forces
`body != None`. -/
def classOkB : PNode → Bool
  | .classNode _ _ _ _ bases _ body _ => bases.isNone || body.isSome
  | _ => true

/-- `classOkB` for a node used as a type name. -/
def pnameClassOk : Option PName → Bool
  | some (.node m) => classOkB m
  | _ => true

/-- The invariant on a node returned by `_get_class`: the node itself, and
the class node possibly embedded as the type name of an anonymous-instance
variable declaration, both satisfy `classOkB`. -/
def topClassOk (n : PNode) : Bool :=
  classOkB n &&
  (match n with
   | .variableDecl _ _ _ ty _ _ => pnameClassOk (ptypeName ty)
   | _ => true)

/-- The collaborator hypotheses for the class invariant: the opaque
function/method constructors only return nodes satisfying the
invariant (`_get_method` builds `Function`/`Method`/`VariableDeclaration`
nodes, never `Class` nodes). -/
def OracleClassOk (c : Collab) : Prop :=
  (∀ args m tt gp st n st',
    c.getMethod args m tt gp st = .ok (n, st') → topClassOk n = true) ∧
  (∀ m tt st n st',
    c.getMethodPub m tt st = .ok (n, st') → topClassOk n = true)

/-- Invariant carried by one tokenizer step: a yielded token ends within the
buffer, and the buffer length is preserved (the in-place rewrites of
`get_tokens` only overwrite ranges with spaces). -/
def stepOutBound (len : Nat) : StepOut → Prop
  | .yield t st' => t.stop ≤ len ∧ st'.src.length = len
  | .skip st' => st'.src.length = len
  | .done => True
  | .fail _ => True

end Cppclean

namespace Cppclean

/-! # Theorems -/

/-! ## Bounds for the scanning primitives -/

theorem subAt_length {sub l : List Char} (h : subAt sub l = true) :
    sub.length ≤ l.length := by
  induction sub generalizing l with
  | nil => simp
  | cons c cs ih =>
    cases l with
    | nil => simp [subAt] at h
    | cons d ds =>
      simp only [subAt, Bool.and_eq_true] at h
      simpa using ih h.2

theorem pyFindAux_ge {sub rest : List Char} {p0 p : Nat}
    (h : pyFindAux sub rest p0 = some p) : p0 ≤ p := by
  induction rest generalizing p0 with
  | nil => simp [pyFindAux] at h
  | cons c r ih =>
    unfold pyFindAux at h
    split at h
    · cases h
      exact Nat.le_refl _
    · exact Nat.le_of_succ_le (ih h)

theorem pyFindAux_fit {sub rest : List Char} {p0 p : Nat}
    (h : pyFindAux sub rest p0 = some p) :
    p + sub.length ≤ p0 + rest.length := by
  induction rest generalizing p0 with
  | nil => simp [pyFindAux] at h
  | cons c r ih =>
    unfold pyFindAux at h
    split at h
    · rename_i hm
      cases h
      have := subAt_length hm
      simpa using this
    · have := ih h
      simp only [List.length_cons]
      omega

theorem pyFind_bound {s sub : List Char} {start p : Nat}
    (h : pyFind s sub start = some p) :
    start ≤ p ∧ p + sub.length ≤ s.length := by
  unfold pyFind at h
  refine ⟨pyFindAux_ge h, ?_⟩
  have hfit := pyFindAux_fit h
  have hne : s.drop start ≠ [] := by
    intro hnil
    rw [hnil] at h
    simp [pyFindAux] at h
  have hlt : start < s.length := by
    by_contra hge
    exact hne (List.drop_eq_nil_of_le (by omega))
  rw [List.length_drop] at hfit
  omega

theorem countWhileGo_lt {p : Char → Bool} {l : List Char} {k : Nat}
    (h : countWhileGo p l = some k) : k < l.length := by
  induction l generalizing k with
  | nil => simp [countWhileGo] at h
  | cons c r ih =>
    unfold countWhileGo at h
    split at h
    · cases hr : countWhileGo p r with
      | none => rw [hr] at h; simp at h
      | some k' =>
        rw [hr] at h
        simp only [Option.map_some'] at h
        cases h
        simpa using ih hr
    · cases h
      simp

theorem consumeWhile_lt {p : Char → Bool} {s : List Char} {i j : Nat}
    (h : consumeWhile p s i = some j) : j < s.length := by
  unfold consumeWhile at h
  cases hg : countWhileGo p (s.drop i) with
  | none => rw [hg] at h; simp at h
  | some k =>
    rw [hg] at h
    simp only [Option.map_some'] at h
    cases h
    have := countWhileGo_lt hg
    rw [List.length_drop] at this
    omega

theorem getStringGo_le {s : List Char} {j : Nat} :
    ∀ (fuel : Nat) (i : Int), i < (s.length : Int) →
      getStringGo s fuel i = .ok j → j ≤ s.length := by
  intro fuel
  induction fuel with
  | zero => intro i _ h; simp [getStringGo] at h
  | succ f ih =>
    intro i hi h
    unfold getStringGo at h
    split at h
    · exact absurd h (by simp)
    · split at h
      · split at h
        · exact absurd h (by simp)
        · split at h
          · cases h; omega
          · split at h
            · exact ih _ (by omega) h
            · rename_i p hp
              have hb : p + 1 ≤ s.length := by
                simpa using (pyFind_bound hp).2
              exact ih _ (by omega) h
      · cases h; omega

theorem getString_le {s : List Char} {i j : Nat}
    (h : getString s i = .ok j) : j ≤ s.length := by
  unfold getString at h
  split at h
  · exact getStringGo_le _ _ (by omega) h
  · rename_i p hp
    have hb : p + 1 ≤ s.length := by simpa using (pyFind_bound hp).2
    exact getStringGo_le _ _ (by omega) h

theorem getCharGo_le {s : List Char} {start j : Nat}
    (hstart : start < s.length) :
    ∀ (fuel : Nat) (opt : Option Nat),
      (∀ p, opt = some p → p + 1 ≤ s.length) →
      getCharGo s start fuel opt = .ok j → j ≤ s.length := by
  intro fuel
  induction fuel with
  | zero => intro opt _ h; simp [getCharGo] at h
  | succ f ih =>
    intro opt hopt h
    match opt with
    | none =>
      unfold getCharGo at h
      cases h
      omega
    | some p =>
      unfold getCharGo at h
      split at h
      · exact absurd h (by simp)
      · split at h
        · split at h
          · exact absurd h (by simp)
          · split at h
            · cases h
              exact hopt p rfl
            · refine ih _ (fun q hq => ?_) h
              have := pyFind_bound hq
              simpa using this.2
        · cases h
          exact hopt p rfl

theorem getChar_le {s : List Char} {start i j : Nat}
    (hstart : start < s.length) (h : getChar s start i = .ok j) :
    j ≤ s.length := by
  unfold getChar at h
  refine getCharGo_le hstart _ _ (fun q hq => ?_) h
  have := pyFind_bound hq
  simpa using this.2

theorem pySlice_len_le {s t : List Char} {a b : Nat}
    (h : pySlice s a b = t) (hne : t ≠ []) : a + t.length ≤ s.length := by
  subst h
  unfold pySlice at hne ⊢
  have hlt : a < (s.take b).length := by
    by_contra hge
    exact hne (List.drop_eq_nil_of_le (by omega))
  rw [List.length_drop]
  rw [List.length_take] at hlt ⊢
  rcases Nat.le_total b s.length with hb | hb
  · rw [Nat.min_eq_left hb] at hlt ⊢
    omega
  · rw [Nat.min_eq_right hb] at hlt ⊢
    omega

theorem blankRange_length {s : List Char} {a b : Nat} (hb : b ≤ s.length)
    (hab : a ≤ b) : (blankRange s a b).length = s.length := by
  unfold blankRange
  simp only [List.length_append, List.length_replicate, List.length_take,
    List.length_drop]
  omega

theorem foldl_min_le {l : List Nat} : ∀ a : Nat, l.foldl min a ≤ a := by
  induction l with
  | nil => intro a; simp
  | cons x xs ih =>
    intro a
    calc (x :: xs).foldl min a = xs.foldl min (min a x) := by simp
    _ ≤ min a x := ih _
    _ ≤ a := Nat.min_le_left _ _

theorem minCandidates_le {l : List (Option Nat)} {e : Nat} :
    minCandidates l e ≤ e := foldl_min_le _

theorem ppScan_ok {gotIf : Bool} {start : Nat} :
    ∀ (fuel : Nat) (src : List Char) (i cnt : Nat) {src' : List Char}
      {i' cnt' : Nat},
      ppScan gotIf start fuel src i cnt = .ok src' i' cnt' →
      src'.length = src.length ∧ i' ≤ src.length := by
  intro fuel
  induction fuel with
  | zero => intro src i cnt _ _ _ h; simp [ppScan] at h
  | succ f ih =>
    intro src i cnt src' i' cnt' h
    unfold ppScan at h
    simp only at h
    set im := minCandidates
      [pyFind src ['\n'] i, pyFind src ['/', '/'] i,
       pyFind src ['/', '*'] i, pyFind src ['"'] i] src.length with him
    have himle : im ≤ src.length := minCandidates_le
    split at h
    · -- comment blanking branch
      split at h
      · exact absurd h (by simp)
      · rename_i p hp
        have hpb := pyFind_bound hp
        have hple : p + 2 ≤ src.length := by simpa using hpb.2
        have hlen : (blankRange src im (p + 2)).length = src.length :=
          blankRange_length hple (by omega)
        have hrec := ih _ _ _ h
        omega
    · split at h
      · exact absurd h (by simp)
      · split at h
        · split at h
          · exact absurd h (by simp)
          · rename_i p hp
            have hrec := ih _ _ _ h
            omega
        · split at h
          · have hrec := ih _ _ _ h
            omega
          · split at h
            · split at h
              all_goals
                simp only [PpRes.ok.injEq] at h
                obtain ⟨rfl, rfl, rfl⟩ := h
                exact ⟨rfl, himle⟩
            · simp only [PpRes.ok.injEq] at h
              obtain ⟨rfl, rfl, rfl⟩ := h
              exact ⟨rfl, himle⟩

theorem emit_bound {len : Nat} {source : List Char} {cnt : Nat}
    {kind : TokKind} {start iNew : Nat} (hlen : source.length = len)
    (h : iNew ≤ len) : stepOutBound len (emit source cnt kind start iNew) := by
  unfold emit
  split_ifs with h1 h2
  · exact hlen
  · exact ⟨h, hlen⟩
  · trivial

theorem emitScan_bound {len : Nat} {source : List Char} {cnt start : Nat}
    {r : ScanRes} (hlen : source.length = len)
    (h : ∀ i1, r = .ok i1 → i1 ≤ len) :
    stepOutBound len (emitScan source cnt start r) := by
  cases r with
  | ok i1 => exact emit_bound hlen (h i1 rfl)
  | idxErr => trivial
  | noFuel => trivial

theorem sliceMap_bound {s l : List Char} {i k : Nat}
    (h : (pySlice s i (i + k)).map pyToLower = l) (hne : l ≠ [])
    (hk : l.length = k) : i + k ≤ s.length := by
  have hlen : (pySlice s i (i + k)).length = k := by
    have h0 := congrArg List.length h
    rw [List.length_map] at h0
    rw [hk] at h0
    exact h0
  have hne' : pySlice s i (i + k) ≠ [] := by
    intro hnil
    rw [hnil] at h
    exact hne h.symm
  have := pySlice_len_le rfl hne'
  omega

theorem intSuffixEnd_le {s : List Char} {i : Nat} (h : i ≤ s.length) :
    intSuffixEnd s i ≤ s.length := by
  unfold intSuffixEnd
  split_ifs with h1 h2 h3 h4 h5 h6
  · exact sliceMap_bound h1 (by simp) (by simp)
  · exact sliceMap_bound h2 (by simp) (by simp)
  · exact sliceMap_bound h3 (by simp) (by simp)
  · exact sliceMap_bound h4 (by simp) (by simp)
  · exact sliceMap_bound h5 (by simp) (by simp)
  · exact sliceMap_bound h6 (by simp) (by simp)
  · exact h

theorem lexName_bound {source : List Char} {cnt start : Nat}
    (hstart : start < source.length) :
    stepOutBound source.length (lexName source cnt start) := by
  unfold lexName
  split
  · trivial
  · rename_i i1 hi1
    have hlt := consumeWhile_lt hi1
    split
    · trivial
    · split_ifs
      · exact emitScan_bound rfl fun j hj => getChar_le hstart hj
      · exact emitScan_bound rfl fun j hj => getString_le hj
      · exact emit_bound rfl (by omega)

theorem lexSlash_bound {source : List Char} {cnt start : Nat} :
    stepOutBound source.length (lexSlash source cnt start) := by
  unfold lexSlash
  split
  · trivial
  · rename_i nx hnx
    have hlt : start + 1 < source.length := (List.getElem?_eq_some.mp hnx).1
    split_ifs
    · split
      · trivial
      · exact rfl
    · split
      · trivial
      · exact rfl
    · exact emit_bound rfl (by omega)
    · exact emit_bound rfl (by omega)

theorem lexAngle_bound {source : List Char} {cnt start : Nat} {c : Char} :
    stepOutBound source.length (lexAngle source cnt start c) := by
  unfold lexAngle
  split
  · trivial
  · rename_i n1 hn1
    have hlt : start + 1 < source.length := (List.getElem?_eq_some.mp hn1).1
    split_ifs
    · split
      · trivial
      · rename_i n2 hn2
        have hlt2 : start + 2 < source.length :=
          (List.getElem?_eq_some.mp hn2).1
        split_ifs
        · exact emit_bound rfl (by omega)
        · exact emit_bound rfl (by omega)
    · exact emit_bound rfl (by omega)
    · exact emit_bound rfl (by omega)

theorem lexPunct2_bound {source : List Char} {cnt start : Nat} {c : Char} :
    stepOutBound source.length (lexPunct2 source cnt start c) := by
  unfold lexPunct2
  split
  · trivial
  · rename_i n1 hn1
    have hlt : start + 1 < source.length := (List.getElem?_eq_some.mp hn1).1
    split_ifs
    all_goals exact emit_bound rfl (by omega)

theorem lexEq_bound {source : List Char} {cnt start : Nat} :
    stepOutBound source.length (lexEq source cnt start) := by
  unfold lexEq
  split
  · trivial
  · rename_i n1 hn1
    have hlt : start + 1 < source.length := (List.getElem?_eq_some.mp hn1).1
    split_ifs
    all_goals exact emit_bound rfl (by omega)

theorem lexDot_bound {source : List Char} {cnt start : Nat} :
    stepOutBound source.length (lexDot source cnt start) := by
  unfold lexDot
  split
  · trivial
  · rename_i n1 hn1
    have hlt : start + 1 < source.length := (List.getElem?_eq_some.mp hn1).1
    split_ifs with hdig
    · split
      · trivial
      · rename_i i1 hi1
        have hlt1 := consumeWhile_lt hi1
        split_ifs with hsfx
        · rcases Bool.or_eq_true_iff.mp hsfx with hs | hs
          · exact emit_bound rfl
              (sliceMap_bound (of_decide_eq_true hs) (by simp) (by simp))
          · exact emit_bound rfl
              (sliceMap_bound (of_decide_eq_true hs) (by simp) (by simp))
        · exact emit_bound rfl (by omega)
    · exact emit_bound rfl (by omega)

theorem numberDigitsEnd_lt {source : List Char} {start : Nat} {c : Char}
    {i1 : Nat} (h : numberDigitsEnd source start c = some i1) :
    i1 < source.length := by
  unfold numberDigitsEnd at h
  split at h
  · split at h
    · exact absurd h (by simp)
    · split at h
      · exact consumeWhile_lt h
      · exact consumeWhile_lt h
  · exact consumeWhile_lt h

theorem lexNumber_bound {source : List Char} {cnt start : Nat} {c : Char} :
    stepOutBound source.length (lexNumber source cnt start c) := by
  unfold lexNumber
  split
  · trivial
  · rename_i i1 hi1
    have hlt := numberDigitsEnd_lt hi1
    split
    · trivial
    · split_ifs
      · exact emit_bound rfl (intSuffixEnd_le (by omega))
      · exact emit_bound rfl (by omega)

theorem lexHash_bound {source : List Char} {cnt start : Nat} :
    stepOutBound source.length (lexHash source cnt start) := by
  unfold lexHash
  split_ifs with h1
  · rw [Bool.and_eq_true] at h1
    have hsl : pySlice source start (start + 6) = "#endif".toList := by
      have h2 := h1.1
      unfold isEndifAt at h2
      rw [Bool.and_eq_true] at h2
      exact of_decide_eq_true h2.2
    have hb : start + 6 ≤ source.length :=
      pySlice_len_le hsl (by simp [hsl])
    show (blankRange source start (start + 6)).length = source.length
    exact blankRange_length hb (by omega)
  all_goals
    split
    · trivial
    · rename_i src' i' cnt' hpp
      have := ppScan_ok _ _ _ _ hpp
      exact emit_bound this.1 (by omega)

theorem tokDispatch_bound (source : List Char) (cnt start : Nat) :
    stepOutBound source.length (tokDispatch source cnt start) := by
  unfold tokDispatch
  split
  · trivial
  · rename_i c hc
    have hstart : start < source.length := (List.getElem?_eq_some.mp hc).1
    split
    · exact lexName_bound hstart
    · exact lexSlash_bound
    · exact lexAngle_bound
    · exact lexPunct2_bound
    · exact lexEq_bound
    · exact lexDot_bound
    · exact emit_bound rfl (by omega)
    · exact lexNumber_bound
    · exact emitScan_bound rfl fun j hj => getString_le hj
    · exact emitScan_bound rfl fun j hj => getChar_le hstart hj
    · exact lexHash_bound
    · exact rfl
    · split
      · exact rfl
      · trivial

theorem tokStep_bound (st : TkState) :
    stepOutBound st.src.length (tokStep st) :=
  tokDispatch_bound st.src st.countIfs (skipWs st.src st.i)



theorem c1_counterexample :
    toksProj (getTokens 32 "5 >> 3".toList) =
      ([(.constant, ['5']), (.syn, ['>']), (.syn, ['>']), (.constant, ['3'])],
        .ok) ∧
    ((getTokens 32 "5 >> 3".toList).1.map Tok.text).contains ['>', '>']
      = false := by
  constructor <;> rfl

/-- Claim C1, amended: the tokenizer's fixed context-free rule always splits
adjacent `>` characters — `vector<vector<int>>` yields two separate `>`
SYNTAX tokens and `5 >> 3` also yields two separate `>` tokens (never one
`>>` token) — while `<<`, `<=` and `>=` are each merged into one token. -/
theorem c1_amended :
    toksProj (getTokens 32 "vector<vector<int>>".toList) =
      ([(.name, "vector".toList), (.syn, ['<']), (.name, "vector".toList),
        (.syn, ['<']), (.name, "int".toList), (.syn, ['>']), (.syn, ['>'])],
        .ok) ∧
    toksProj (getTokens 32 "5 >> 3".toList) =
      ([(.constant, ['5']), (.syn, ['>']), (.syn, ['>']), (.constant, ['3'])],
        .ok) ∧
    toksProj (getTokens 32 "a << b".toList) =
      ([(.name, ['a']), (.syn, ['<', '<']), (.name, ['b'])], .ok) ∧
    toksProj (getTokens 32 "a <= b".toList) =
      ([(.name, ['a']), (.syn, ['<', '=']), (.name, ['b'])], .ok) ∧
    toksProj (getTokens 32 "a >= b".toList) =
      ([(.name, ['a']), (.syn, ['>', '=']), (.name, ['b'])], .ok) := by
  refine ⟨?_, ?_, ?_, ?_, ?_⟩ <;> rfl

/-- Claim C3, counterexample.  The claim asserts that an unterminated string
literal does not crash the tokenizer and that the opening quote is emitted
as a single-character token; in fact `_get_string` has no fallback for a
missing closing quote (unlike `_get_char`): on `"abc` it returns `0`, the
`assert i > 0` at tokenize.py line 285 fails, and tokenization aborts with
an `AssertionError`, yielding no token at all. -/
theorem c3_counterexample :
    getTokens 32 "\"abc".toList = ([], .fail .assertionError) := by
  rfl

/-- Claim C3, amended: only unterminated *character* literals are handled:
when no further `'` occurs, `_get_char` falls back to `start + 1`, so the
opening quote becomes a single-character token and tokenization continues
(e.g. on `'abc`); unterminated *string* literals are not protected and
abort the tokenizer with an assertion failure. -/
theorem c3_amended :
    (∀ (s : List Char) (start i : Nat),
        pyFind s [squote] (i + 1) = none → getChar s start i = .ok (start + 1)) ∧
    toksProj (getTokens 32 ([squote] ++ "abc".toList)) =
      ([(.constant, [squote]), (.name, "abc".toList)], .ok) ∧
    getTokens 32 "\"abc".toList = ([], .fail .assertionError) := by
  refine ⟨fun s start i h => ?_, by rfl, by rfl⟩
  simp only [getChar, h, getCharGo]

/-- Witness for the amended claim C3 at a concrete input: in `x'abc` the
quote at offset 1 has no matching closing quote, and `_get_char` falls back
to `start + 1`. -/
theorem c3_amended_witness : getChar "xabc".toList 1 1 = .ok 2 :=
  c3_amended.1 "xabc".toList 1 1 (by rfl)

/-- Claim C8, counterexample.  The claim asserts that tokenization fails
with a `TokenError` *iff* the source contains an unrecognized character
outside a suppressed `#if 0` region.  Both directions fail: `/*` (an
unterminated block comment) consists only of recognized characters yet
raises `TokenError` (via `_find`, tokenize.py line 296), and `//@` contains
the unrecognized character `@` outside any suppressed region yet tokenizes
without error (the character sits inside a discarded comment). -/
theorem c8_counterexample :
    (getTokens 8 "/*".toList = ([], .fail (.tokenError ['*', '/'])) ∧
      "/*".toList.all recognizedChar = true) ∧
    (getTokens 8 "//@".toList = ([], .ok) ∧ recognizedChar '@' = false) := by
  exact ⟨⟨by rfl, by decide⟩, ⟨by rfl, by decide⟩⟩

/-- Claim C8, amended: when the dispatch of `get_tokens` *reaches* an
unrecognized character it raises `TokenError` if no `#if 0` suppression is
active and silently skips the character otherwise; but this is not an iff
over the raw source text — unrecognized characters consumed inside
comments, literals or directives are harmless, and `TokenError` is also
raised for an unterminated `/* ... */` search (`_find`), while unterminated
string literals abort with an assertion failure instead. -/
theorem c8_amended (src : List Char) (i n : Nat) (c : Char)
    (hc : src[i]? = some c) (hw : pyIsSpace c = false)
    (hr : recognizedChar c = false) :
    tokStep ⟨src, i, 0⟩ = .fail (.tokenError [c]) ∧
    tokStep ⟨src, i, n + 1⟩ = .skip ⟨src, i + 1, n + 1⟩ := by
  have hlt : i < src.length := by
    by_contra hge
    rw [List.getElem?_eq_none (by omega)] at hc
    exact Option.noConfusion hc
  have hdrop : src.drop i = c :: src.drop (i + 1) := by
    rw [List.drop_eq_getElem_cons hlt]
    rw [List.getElem?_eq_getElem hlt] at hc
    simp_all
  have hskip : skipWs src i = i := by
    simp [skipWs, hdrop, countWs, hw]
  simp only [recognizedChar, Bool.or_eq_false_iff,
    decide_eq_false_iff_not] at hr
  obtain ⟨⟨⟨⟨⟨⟨⟨⟨⟨⟨⟨⟨⟨⟨⟨⟨⟨⟨⟨⟨⟨⟨⟨⟨⟨⟨⟨⟨⟨⟨h1, h2⟩, h3⟩, h4⟩, h5⟩, h6⟩,
    h7⟩, h8⟩, h9⟩, h10⟩, h11⟩, h12⟩, h13⟩, h14⟩, h15⟩, h16⟩, h17⟩, h18⟩,
    h19⟩, h20⟩, h21⟩, h22⟩, h23⟩, h24⟩, h25⟩, h26⟩, h27⟩, h28⟩, h29⟩,
    h30⟩, h31⟩ := hr
  constructor <;>
    simp [tokStep, tokDispatch, charClassOf, hskip, hc, h1, h2, h3, h4, h5,
      h6, h7, h8, h9, h10, h11,
      h12, h13, h14, h15, h16, h17, h18, h19, h20, h21, h22, h23, h24, h25,
      h26, h27, h28, h29, h30, h31]

/-- Witness for the amended claim C8 at the concrete character `@`. -/
theorem c8_amended_witness :
    tokStep ⟨['@'], 0, 0⟩ = .fail (.tokenError ['@']) ∧
    tokStep ⟨['@'], 0, 3⟩ = .skip ⟨['@'], 1, 3⟩ :=
  ⟨(c8_amended ['@'] 0 2 '@' (by rfl) (by decide) (by decide)).1,
    (c8_amended ['@'] 0 2 '@' (by rfl) (by decide) (by decide)).2⟩

/-- Claim C5, counterexample.  The claim asserts `start < end` for every
yielded token.  On the source `"a" "b\` (a complete string literal, then a
second unterminated one whose text ends with a backslash) `_get_string`'s
rescan wraps around via `source.find('"', 0)` and returns position `1`, so
`get_tokens` yields the token `Token(CONSTANT, '', 4, 1)` with
`start = 4 > 1 = end` — and the run even finishes without error. -/
theorem tokLoop_bound :
    ∀ (fuel : Nat) (st : TkState) (t : Tok), t ∈ (tokLoop fuel st).1 →
      t.stop ≤ st.src.length := by
  intro fuel
  induction fuel with
  | zero => intro st t ht; simp [tokLoop] at ht
  | succ f ih =>
    intro st t ht
    have hb := tokStep_bound st
    unfold tokLoop at ht
    split at ht
    · simp at ht
    · simp at ht
    · rename_i st' hstep
      rw [hstep] at hb
      have := ih st' t ht
      exact le_of_le_of_eq this hb
    · rename_i t' st' hstep
      rw [hstep] at hb
      simp only [List.mem_cons] at ht
      rcases ht with rfl | ht
      · exact hb.1
      · have := ih st' t ht
        rcases hb with ⟨hb1, hb2⟩
        omega

/-- Claim C5, amended: for every yielded token,
`end ≤ len(source) + 1` (offsets land inside the normalized buffer), and by
construction `token.text` is the slice `source[start:end]` of the
tokenizer's *current working buffer* (which can differ from the original
where comments inside preprocessor directives and consumed `#endif`
markers were overwritten with spaces); but `start < end` can fail — the
unterminated-string fallback scan can yield an empty token whose `start`
exceeds its `end` (see the counterexample). -/
theorem c5_amended (fuel : Nat) (source : List Char) :
    ∀ t ∈ (getTokens fuel source).1, t.stop ≤ source.length + 1 := by
  intro t ht
  unfold getTokens at ht
  have hb := tokLoop_bound fuel _ t ht
  simp only at hb
  split at hb
  · omega
  · rw [List.length_append] at hb
    simpa using hb

/-- Witness for the amended claim C5 at a concrete run. -/
theorem c5_amended_witness :
    (⟨.name, ['a', 'b'], 0, 2⟩ : Tok).stop ≤ "ab".toList.length + 1 :=
  c5_amended 32 "ab".toList ⟨.name, ['a', 'b'], 0, 2⟩ (by decide)

theorem c5_counterexample :
    (∃ t ∈ (getTokens 32 "\"a\" \"b\\".toList).1, ¬ t.start < t.stop) ∧
    (getTokens 32 "\"a\" \"b\\".toList).2 = .ok := by
  constructor
  · exact ⟨⟨.constant, [], 4, 1⟩, by decide, by decide⟩
  · rfl

/-! ## C2: filesystem independence of node generation -/

/-- C2, counterexample: with a non-empty system search-path list, two runs
of the builder on the very same source `#include "foo.h"` (and the same
filename and search paths) disagree on the `system` flag of the produced
`Include` node depending on what `os.path.isfile` answers — the
`#include` arm of `_generate_one` (ast.py lines 764-790) probes the
filesystem. -/
theorem c2_counterexample :
    includeSystemFlags (runBuilderWith
        { noCollab with systemIncludes := ["sys".toList]
                        isfile := fun _ => false }
        64 (getTokens 200 "#include \"foo.h\"".toList).1) = [false] ∧
    includeSystemFlags (runBuilderWith
        { noCollab with systemIncludes := ["sys".toList]
                        isfile := fun _ => true }
        64 (getTokens 200 "#include \"foo.h\"".toList).1) = [true] := by
  exact ⟨rfl, rfl⟩

theorem generateOne_isfile_congr (f g : List Char → Bool) :
    ∀ fuel tok st,
      generateOne { noCollab with isfile := f } fuel tok st =
      generateOne { noCollab with isfile := g } fuel tok st := by
  intro fuel
  induction fuel with
  | zero => intro tok st; rfl
  | succ n ih =>
    intro tok st
    simp only [generateOne]
    simp only [ih]
    rfl

theorem generateLoop_isfile_congr (f g : List Char → Bool) :
    ∀ fuel st acc,
      generateLoop { noCollab with isfile := f } fuel st acc =
      generateLoop { noCollab with isfile := g } fuel st acc := by
  intro fuel
  induction fuel with
  | zero => intro st acc; rfl
  | succ n ih =>
    intro st acc
    simp only [generateLoop]
    simp only [generateOne_isfile_congr f g, ih]

/-- C2, amended: when both search-path lists are empty, the builder never
consults the `isfile` oracle — for every pair of filesystem oracles `f`,
`g`, every fuel and every token list, the two runs are identical. -/
theorem c2_amended (f g : List Char → Bool) (fuel : Nat) (toks : List Tok) :
    runBuilderWith { noCollab with isfile := f } fuel toks =
    runBuilderWith { noCollab with isfile := g } fuel toks :=
  generateLoop_isfile_congr f g fuel _ _

/-! ## C7: failure kinds escaping the builder -/

/-- C7, counterexample: on the malformed input `using ;` the builder does
not fail with a `ParseError`: `handle_using`'s bare `assert tokens`
(ast.py line 1624) raises a plain `AssertionError` carrying no token. -/
theorem c7_counterexample :
    builderNodes 1 100 (getTokens 200 "using ;".toList).1 =
      .error .assertionError := by
  rfl

/-- C7, amended: structural violations checked through `assert_parse` do
fail with the distinguishable `ParseError` carrying the offending token
(`namespace ;` fails on the `;` token), but that is not the only failure
kind: `using ;` escapes with a bare `AssertionError`. -/
theorem c7_amended :
    builderNodes 1 100 (getTokens 200 "namespace ;".toList).1 =
      .error (.parseError (some ⟨.syn, ";".toList, 10, 11⟩)
        "expected open brace".toList) ∧
    builderNodes 1 100 (getTokens 200 "using ;".toList).1 =
      .error .assertionError := by
  exact ⟨rfl, rfl⟩

/-! ## C9: classification of a forward-declared enum -/

/-- C9: parsing `enum Foo;` yields the bodyless `Enum` node (fields
`none`), but — contrary to the claim and to the spec's classification —
`is_declaration()` returns `false` and `is_definition()` returns `true`
for it: `Enum` (ast.py lines 229-243) overrides `is_definition` to return
`True` unconditionally and never overrides the `Node.is_declaration`
default `False`. -/
theorem c9_enum_forward_classification :
    builderNodes 1 100 (getTokens 200 "enum Foo;".toList).1 =
      .ok [.enumNode 8 9 (some "Foo".toList) none []] ∧
    isDeclaration (.enumNode 8 9 (some "Foo".toList) none []) = false ∧
    isDefinition (.enumNode 8 9 (some "Foo".toList) none []) = true := by
  exact ⟨rfl, rfl, rfl⟩

/-! ## C10: the two `using` forms -/

/-- C10, counterexample: the type-alias form does *not* produce a `Using`
node — `handle_using` (ast.py lines 1622-1636) returns a `Typedef` node
when `namespace` is not among the first converted type's modifiers, so
`using Foo = Bar;` yields a `Typedef` named `Foo=Bar`. -/
theorem c10_counterexample :
    builderNodes 1 100 (getTokens 200 "using Foo = Bar;".toList).1 =
      .ok [.typedefNode 6 9 (some (.str "Foo=Bar".toList))
        [.mk 6 15 (some (.str "Foo=Bar".toList)) [] [] false false false]
        []] := by
  rfl

/-- C10, amended: `handle_using` distinguishes the two forms by whether
`namespace` appears among the modifiers of the first converted type:
`using namespace foo;` yields a `Using` node carrying the consumed name
tokens, while the alias form `using Foo = Bar;` yields a `Typedef` node
(never a `Using`). -/
theorem c10_amended :
    builderNodes 1 100 (getTokens 200 "using namespace foo;".toList).1 =
      .ok [.usingNode 6 15 [⟨.name, "namespace".toList, 6, 15⟩,
        ⟨.name, "foo".toList, 16, 19⟩]] ∧
    builderNodes 1 100 (getTokens 200 "using Foo = Bar;".toList).1 =
      .ok [.typedefNode 6 9 (some (.str "Foo=Bar".toList))
        [.mk 6 15 (some (.str "Foo=Bar".toList)) [] [] false false false]
        []] := by
  exact ⟨rfl, rfl⟩

/-! ## C6: the class forward-declaration invariant -/

theorem WfToks_tail {st : BSt} {t : Tok} {rest : List Tok}
    (h : st.toks = t :: rest) (hwf : WfToks st) :
    wfTok t = true ∧ WfToks { st with toks := rest } := by
  constructor
  · exact hwf t (by rw [h]; exact List.mem_cons_self t rest)
  · intro u hu
    exact hwf u (by rw [h]; exact List.mem_cons_of_mem t hu)

theorem getNextToken_wf {st : BSt} {t : Tok} {st' : BSt}
    (hwf : WfToks st) (h : getNextToken st = .ok (t, st')) :
    wfTok t = true ∧ WfToks st' := by
  unfold getNextToken at h
  cases hst : st.toks with
  | nil => rw [hst] at h; cases h
  | cons u rest =>
    rw [hst] at h
    obtain ⟨rfl, rfl⟩ : u = t ∧ ({ st with toks := rest } : BSt) = st' := by
      cases h; exact ⟨rfl, rfl⟩
    exact WfToks_tail hst hwf

theorem WfToks_addBack {st : BSt} {t : Tok}
    (hw : WfToks st) (ht : wfTok t = true) : WfToks (addBackToken t st) := by
  intro u hu
  rcases List.mem_cons.mp hu with rfl | hu
  · exact ht
  · exact hw u hu

theorem WfToks_addBacks {st : BSt} {ts : List Tok}
    (hw : WfToks st) (hts : ∀ t ∈ ts, wfTok t = true) :
    WfToks (addBackTokens ts st) := by
  intro u hu
  rcases List.mem_append.mp hu with hu | hu
  · exact hts u hu
  · exact hw u hu

theorem getMatchingChar_wf (oc cc : List Char) :
    ∀ fuel count acc st l st',
      WfToks st →
      getMatchingChar oc cc fuel count acc st = .ok (l, st') →
      WfToks st' := by
  intro fuel
  induction fuel with
  | zero => intro c a st l st' _ h; cases h
  | succ n ih =>
    intro count acc st l st' hwf h
    simp only [getMatchingChar] at h
    cases hg : getNextToken st with
    | error e => rw [hg] at h; cases h
    | ok p =>
      obtain ⟨t, st1⟩ := p
      rw [hg] at h
      simp only [bindE] at h
      obtain ⟨ht, hw1⟩ := getNextToken_wf hwf hg
      repeat' split at h
      all_goals
        first
          | (cases h; exact hw1)
          | (exact ih _ _ _ _ _ hw1 h)

theorem getMatching_wf {oc cc : List Char} {fuel : Nat} {st : BSt}
    {l : List Tok} {st' : BSt} (hwf : WfToks st)
    (h : getMatching oc cc fuel st = .ok (l, st')) : WfToks st' :=
  getMatchingChar_wf oc cc fuel 1 [] st l st' hwf h

theorem getNameLoop_wf :
    ∀ fuel tokens lwn st r st',
      WfToks st →
      getNameLoop fuel tokens lwn st = .ok (r, st') →
      wfTok r.2 = true ∧ WfToks st' := by
  intro fuel
  induction fuel with
  | zero => intro tokens lwn st r st' _ h; cases h
  | succ n ih =>
    intro tokens lwn st r st' hwf h
    simp only [getNameLoop] at h
    cases hg : getNextToken st with
    | error e => rw [hg] at h; cases h
    | ok p =>
      obtain ⟨t, st1⟩ := p
      rw [hg] at h
      simp only [bindE] at h
      obtain ⟨ht, hw1⟩ := getNextToken_wf hwf hg
      split at h
      · split at h
        · cases h; exact ⟨ht, hw1⟩
        · split at h
          · cases hm : getMatching "<".toList ">".toList n st1 with
            | error e => rw [hm] at h; cases h
            | ok q =>
              obtain ⟨more, st2⟩ := q
              rw [hm] at h
              simp only [bindE] at h
              exact ih _ _ _ _ _ (getMatching_wf hw1 hm) h
          · exact ih _ _ _ _ _ hw1 h
      · cases h; exact ⟨ht, hw1⟩

theorem getNameM_wf {fuel : Nat} {st : BSt} {r : List Tok × Tok} {st' : BSt}
    (hwf : WfToks st) (h : getNameM fuel st = .ok (r, st')) :
    wfTok r.2 = true ∧ WfToks st' :=
  getNameLoop_wf fuel [] false st r st' hwf h

theorem bindE_ok {α β : Type} {x : Except BErr (α × BSt)}
    {f : α → BSt → Except BErr (β × BSt)} {r : β} {st' : BSt}
    (h : bindE x f = .ok (r, st')) :
    ∃ a st1, x = .ok (a, st1) ∧ f a st1 = .ok (r, st') := by
  cases x with
  | error e => cases h
  | ok p => exact ⟨p.1, p.2, rfl, h⟩

theorem assertParse_ok {b : Bool} {tk : Option Tok} {msg : List Char}
    {st : BSt} {u : Unit} {st' : BSt}
    (h : assertParse b tk msg st = .ok (u, st')) : st' = st := by
  unfold assertParse at h
  split at h
  · cases h; rfl
  · cases h

theorem skipPreprocToks_wf :
    ∀ fuel tok st t st',
      WfToks st → wfTok tok = true →
      skipPreprocToks fuel tok st = .ok (t, st') →
      wfTok t = true ∧ WfToks st' := by
  intro fuel
  induction fuel with
  | zero => intro tok st t st' _ _ h; cases h
  | succ n ih =>
    intro tok st t st' hwf htok h
    simp only [skipPreprocToks] at h
    split at h
    · obtain ⟨t2, st1, hg, h⟩ := bindE_ok h
      obtain ⟨ht2, hw1⟩ := getNextToken_wf hwf hg
      exact ih _ _ _ _ hw1 ht2 h
    · cases h; exact ⟨htok, hwf⟩

theorem wfTok_brace {t : Tok} (hw : wfTok t = true)
    (ht : t.text = "\x7b".toList) : t.kind = TokKind.syn := by
  unfold wfTok at hw
  rw [if_pos ht] at hw
  simpa using hw

/-- `_get_bases` only hands control back at the `{` that opens the class
body: the returned token has text `{` (and, for well-formed token streams,
kind SYNTAX). -/
theorem getBases_brace (fuel : Nat) :
    ∀ loopFuel bases st r st',
      WfToks st →
      getBases fuel loopFuel bases st = .ok (r, st') →
      r.2.text = "\x7b".toList ∧ r.2.kind = TokKind.syn ∧ WfToks st' := by
  intro loopFuel
  induction loopFuel with
  | zero => intro bases st r st' _ h; cases h
  | succ n ih =>
    intro bases st r st' hwf h
    simp only [getBases] at h
    obtain ⟨tok, st1, hg, h⟩ := bindE_ok h
    obtain ⟨htok, hw1⟩ := getNextToken_wf hwf hg
    split at h
    · exact ih _ _ _ _ hw1 h
    · obtain ⟨nt, st2, hn, h⟩ := bindE_ok h
      obtain ⟨hnt, hw2⟩ := getNameM_wf (WfToks_addBack hw1 htok) hn
      obtain ⟨bn, st3, hb, h⟩ := bindE_ok h
      have hbn : wfTok bn.2 = true ∧ WfToks st3 := by
        split at hb
        · obtain ⟨nt2, st4, hn2, hb⟩ := bindE_ok hb
          obtain ⟨hnt2, hw4⟩ := getNameM_wf (WfToks_addBack hw2 hnt) hn2
          cases hb
          exact ⟨hnt2, hw4⟩
        · cases hb; exact ⟨hnt, hw2⟩
      obtain ⟨hbn2, hw3⟩ := hbn
      obtain ⟨nxt, st5, hx, h⟩ := bindE_ok h
      have hnxt : wfTok nxt = true ∧ WfToks st5 := by
        split at hx
        · exact getNextToken_wf hw3 hx
        · cases hx; exact ⟨hbn2, hw3⟩
      obtain ⟨nxt2, st6, hs, h⟩ := bindE_ok h
      obtain ⟨hnx2, hw6⟩ := skipPreprocToks_wf _ _ _ _ _ hnxt.2 hnxt.1 hs
      split at h
      · rename_i hbr
        cases h
        exact ⟨hbr, wfTok_brace hnx2 hbr, hw6⟩
      · exact ih _ _ _ _ hw6 h

theorem mkPType_name_classOk (a b : Nat) (nm : List Char)
    (tt : List PType) (mods : List (List Char)) (r p arr : Bool) :
    pnameClassOk (ptypeName (mkPType a b (some (.str nm)) tt mods r p arr))
      = true := by
  unfold mkPType
  split
  · split <;> rfl
  · rfl

theorem addType_names (g : List Tok → List PType) (s : ToTypeSt) :
    ∀ ty ∈ (addType g s).result,
      ty ∈ s.result ∨ pnameClassOk (ptypeName ty) = true := by
  intro ty hty
  unfold addType at hty
  split at hty
  · exact Or.inl hty
  · rcases List.mem_append.mp hty with h | h
    · exact Or.inl h
    · right
      rcases List.mem_singleton.mp h with rfl
      exact mkPType_name_classOk _ _ _ _ _ _ _ _

theorem toTypeLoop_names (g : List Tok → List PType) (ts : List Tok) :
    ∀ fuel i s,
      (∀ ty ∈ (s : ToTypeSt).result, pnameClassOk (ptypeName ty) = true) →
      ∀ ty ∈ (toTypeLoop g ts fuel i s).result,
        pnameClassOk (ptypeName ty) = true := by
  intro fuel
  induction fuel with
  | zero => intro i s hs ty hty; exact hs ty hty
  | succ n ih =>
    intro i s hs ty hty
    simp only [toTypeLoop] at hty
    repeat' split at hty
    all_goals
      first
        | exact hs ty hty
        | (refine ih _ _ ?_ ty hty
           intro u hu
           first
             | exact hs u hu
             | exact (addType_names g s u hu).elim (hs u) id)

theorem toType_names :
    ∀ fuel ts ty, ty ∈ toType fuel ts →
      pnameClassOk (ptypeName ty) = true := by
  intro fuel
  cases fuel with
  | zero => intro ts ty h; cases h
  | succ n =>
    intro ts ty h
    simp only [toType] at h
    rcases addType_names _ _ ty h with h2 | h2
    · exact toTypeLoop_names _ _ _ _ _
        (fun u hu => absurd hu (List.not_mem_nil u)) ty h2
    · exact h2

theorem toTypeF_names {ts : List Tok} {ty : PType} (h : ty ∈ toTypeF ts) :
    pnameClassOk (ptypeName ty) = true :=
  toType_names _ ts ty h

theorem getClassBody_classOk (collab : Collab) (fuel : Nat) (kind : CKind)
    (tt : Option TemplMap) (classToken : Tok) (className : Option PName)
    (nameTokens : List Tok) (bases : Option (List PType)) (token : Tok)
    (st : BSt) (res : Option PNode) (st' : BSt)
    (hOk : OracleClassOk collab)
    (hb : bases.isSome = true →
      token.kind = TokKind.syn ∧ token.text = "\x7b".toList)
    (h : getClassBody collab fuel kind tt classToken className nameTokens
      bases token st = .ok (res, st')) :
    ∀ n, res = some n → topClassOk n = true := by
  simp only [getClassBody] at h
  split at h
  · -- the `{` branch: a body is produced
    obtain ⟨scope, st1, hsc, h⟩ := bindE_ok h
    split at h
    · cases h
    · split at h
      · obtain ⟨tok2, st2, hg2, h⟩ := bindE_ok h
        split at h
        · obtain ⟨u1, st3, ha1, h⟩ := bindE_ok h
          obtain ⟨u2, st4, ha2, h⟩ := bindE_ok h
          cases h
          intro n hn
          cases hn
          simp [topClassOk, classOkB]
        · obtain ⟨tok3, st3, hg3, h⟩ := bindE_ok h
          obtain ⟨ig, st4, hig, h⟩ := bindE_ok h
          cases h
          intro n hn
          cases hn
          simp [topClassOk, classOkB, createVariable, mkPType, pyFalsyName,
            ptypeName, pnameClassOk]
      · cases h
        intro n hn
        cases hn
        simp [topClassOk, classOkB]
  · rename_i hcond
    split at h
    · obtain ⟨nd, st1, hm, h⟩ := bindE_ok h
      cases h
      intro n hn
      cases hn
      exact hOk.1 _ _ _ _ _ _ _ hm
    · cases h
      intro n hn
      cases hn
      cases hbs : bases with
      | none => simp [topClassOk, classOkB, hbs]
      | some bs =>
        exact absurd (hb (by rw [hbs]; rfl)) hcond

theorem getClassTail_classOk (collab : Collab) (fuel : Nat) (kind : CKind)
    (tt : Option TemplMap) (classToken : Tok) (className : Option PName)
    (nameTokens : List Tok) (token : Tok) (st : BSt)
    (res : Option PNode) (st' : BSt)
    (hOk : OracleClassOk collab) (hwf : WfToks st)
    (hname : pnameClassOk className = true)
    (h : getClassTail collab fuel kind tt classToken className nameTokens
      token st = .ok (res, st')) :
    ∀ n, res = some n → topClassOk n = true := by
  simp only [getClassTail] at h
  obtain ⟨tok1, st1, ht1, h⟩ := bindE_ok h
  have hw1 : WfToks st1 := by
    split at ht1
    · exact (getNextToken_wf hwf ht1).2
    · cases ht1; exact hwf
  split at h
  · -- forward declaration
    cases h
    intro n hn
    cases hn
    simp [topClassOk, classOkB]
  · split at h
    · -- the `*`/`&` inline-declaration branch
      obtain ⟨nameTok, st2, hg2, h⟩ := bindE_ok h
      obtain ⟨nextTok, st3, hg3, h⟩ := bindE_ok h
      split at h
      · cases h
        intro n hn
        cases hn
        simp only [topClassOk, createVariable, classOkB, Bool.true_and]
        unfold mkPType
        split
        · rfl
        · exact hname
      · obtain ⟨nd, st4, hm, h⟩ := bindE_ok h
        cases h
        intro n hn
        cases hn
        exact hOk.2 _ _ _ _ _ hm
    · split at h
      · -- base-class list, then the class body
        obtain ⟨bt, st2, hbs, h⟩ := bindE_ok h
        obtain ⟨hbtext, hbkind, hw2⟩ := getBases_brace fuel fuel [] st1
          bt st2 hw1 hbs
        exact getClassBody_classOk collab fuel kind tt classToken className
          nameTokens (some bt.1) bt.2 st2 res st' hOk
          (fun _ => ⟨hbkind, hbtext⟩) h
      · exact getClassBody_classOk collab fuel kind tt classToken className
          nameTokens none tok1 st1 res st' hOk
          (fun hc => by cases hc) h

/-- `_get_class` only returns class-like nodes satisfying the
`bases != None → body != None` half of the forward-declaration invariant,
for well-formed token streams and collaborators. -/
theorem getClass_classOk (collab : Collab) (fuel : Nat) (kind : CKind)
    (tt : Option TemplMap) (st : BSt) (res : Option PNode) (st' : BSt)
    (hOk : OracleClassOk collab) (hwf : WfToks st)
    (h : getClass collab fuel kind tt st = .ok (res, st')) :
    ∀ n, res = some n → topClassOk n = true := by
  simp only [getClass] at h
  obtain ⟨classToken, st1, hg, h⟩ := bindE_ok h
  obtain ⟨hct, hw1⟩ := getNextToken_wf hwf hg
  split at h
  · obtain ⟨u, st2, ha, h⟩ := bindE_ok h
    have hw2 : WfToks st2 := by rw [assertParse_ok ha]; exact hw1
    exact getClassTail_classOk collab fuel kind tt classToken none []
      classToken st2 res st' hOk hw2 rfl h
  · obtain ⟨nt, st2, hn, h⟩ := bindE_ok h
    obtain ⟨hnt, hw2⟩ := getNameM_wf (WfToks_addBack hw1 hct) hn
    obtain ⟨ntt, st3, hc, h⟩ := bindE_ok h
    have hw3 : wfTok ntt.2 = true ∧ WfToks st3 := by
      split at hc
      · split at hc
        · obtain ⟨t2, st4, hg2, hc⟩ := bindE_ok hc
          cases hc
          exact getNextToken_wf hw2 hg2
        · cases hc; exact ⟨hnt, hw2⟩
      · split at hc
        · obtain ⟨nta, st4, hna, hc⟩ := bindE_ok hc
          have hh := getNameM_wf (WfToks_addBack hw2 hnt) hna
          split at hc
          · cases hc
          · split at hc
            · cases hc; exact hh
            · cases hc; exact hh
        · cases hc; exact ⟨hnt, hw2⟩
    split at h
    · cases h
    · rename_i ty0 tys hty
      obtain ⟨u, st4, ha, h⟩ := bindE_ok h
      have hw4 : WfToks st4 := by rw [assertParse_ok ha]; exact hw3.2
      have hn0 : pnameClassOk (ptypeName ty0) = true :=
        toTypeF_names (by rw [hty]; exact List.mem_cons_self _ _)
      exact getClassTail_classOk collab fuel kind tt classToken
        (ptypeName ty0) ntt.1 ntt.2 st4 res st' hOk hw4 hn0 h

/-- C6, counterexample: the code *can* produce a class-like node with one
of the two fields `None` and the other not — `class Foo { } ;` yields a
`Class` node with `bases = None` but `body = []` (an empty list, not
`None`), so "having one without the other is not producible" is false as
stated; only the direction `bases != None → body != None` holds. -/
theorem c6_counterexample :
    builderNodes 2 400 (getTokens 400 "class Foo { } ;".toList).1 =
      .ok [.classNode .cls 6 9 (some (.str "Foo".toList)) none none
        (some []) []] ∧
    isDeclaration (.classNode CKind.cls 6 9 (some (.str "Foo".toList))
      none none (some []) []) = false := by
  exact ⟨rfl, rfl⟩

/-- C6, amended: (a) parsing `class Foo;` yields exactly one `Class` node
with `bases = None` and `body = None`, classified as a declaration and not
a definition; (b) for every well-formed token stream (text `{` implies
kind SYNTAX, as the tokenizer guarantees) and every collaborator whose
opaque method/variable constructors respect the invariant, `_get_class`
never returns a node with `bases != None` together with `body == None`
(the converse direction is refuted by `c6_counterexample`). -/
theorem c6_amended :
    (builderNodes 2 400 (getTokens 400 "class Foo;".toList).1 =
        .ok [.classNode .cls 6 9 (some (.str "Foo".toList)) none none
          none []] ∧
      isDeclaration (.classNode CKind.cls 6 9 (some (.str "Foo".toList))
        none none none []) = true ∧
      isDefinition (.classNode CKind.cls 6 9 (some (.str "Foo".toList))
        none none none []) = false) ∧
    (∀ collab fuel kind tt st res st',
      OracleClassOk collab → WfToks st →
      getClass collab fuel kind tt st = .ok (res, st') →
      ∀ n, res = some n → topClassOk n = true) := by
  refine ⟨⟨rfl, rfl, rfl⟩, ?_⟩
  intro collab fuel kind tt st res st' hOk hwf h
  exact getClass_classOk collab fuel kind tt st res st' hOk hwf h

/-- Witness for C6 at a concrete run of `_get_class` on the token tail of
`class Foo;`, with the opaque collaborators instantiated by `noCollab`. -/
theorem c6_amended_witness :
    topClassOk (.classNode CKind.cls 6 9 (some (.str "Foo".toList))
      none none none []) = true :=
  c6_amended.2 noCollab 50 CKind.cls none
    ⟨[⟨.name, "Foo".toList, 6, 9⟩, ⟨.syn, ";".toList, 9, 10⟩],
      [], [], [], false, false, none⟩
    (some (.classNode CKind.cls 6 9 (some (.str "Foo".toList))
      none none none []))
    ⟨[], [], [], [], false, false, none⟩
    (by unfold OracleClassOk
        constructor
        · intro args m tt gp st n st' h
          exact nomatch h
        · intro m tt st n st' h
          exact nomatch h)
    (by unfold WfToks; decide) rfl _ rfl


/-! ## C4: the `#if 0` suppression property -/

theorem countWs_append_run :
    ∀ sp : List Char, WsRun sp → ∀ (d : Char) (t : List Char),
      pyIsSpace d = false → countWs (sp ++ d :: t) = sp.length := by
  intro sp
  induction sp with
  | nil => intro _ d t hd; simp [countWs, hd]
  | cons c r ih =>
    intro hsp d t hd
    have hc := hsp c (List.mem_cons_self c r)
    simp [countWs, hc,
      ih (fun u hu => hsp u (List.mem_cons_of_mem c hu)) d t hd]

theorem countWs_all : ∀ sp : List Char, WsRun sp → countWs sp = sp.length := by
  intro sp
  induction sp with
  | nil => intro _; rfl
  | cons c r ih =>
    intro hsp
    have hc := hsp c (List.mem_cons_self c r)
    simp [countWs, hc, ih (fun u hu => hsp u (List.mem_cons_of_mem c hu))]

theorem drop_of_drop {src a b : List Char} {i n : Nat}
    (h : src.drop i = a ++ b) (hn : a.length = n) :
    src.drop (i + n) = b := by
  subst hn
  have h2 : (src.drop i).drop a.length = b := by
    rw [h]; exact List.drop_left a b
  first
    | (rw [← h2, List.drop_drop])
    | (rw [← h2, List.drop_drop, Nat.add_comm])

theorem getElem?_of_drop {src a t : List Char} {c : Char} {i n : Nat}
    (h : src.drop i = a ++ c :: t) (hn : a.length = n) :
    src[i + n]? = some c := by
  have h2 : src.drop (i + n) = c :: t := drop_of_drop h hn
  have h3 : (src.drop (i + n))[0]? = some c := by rw [h2]; simp
  rwa [List.getElem?_drop, Nat.add_zero] at h3

theorem pySlice_of_drop {src w t : List Char} {i n : Nat}
    (h : src.drop i = w ++ t) (hn : w.length = n) :
    pySlice src i (i + n) = w := by
  unfold pySlice
  rw [List.drop_take]
  have : i + n - i = n := by omega
  rw [this, h, ← hn, List.take_left]

theorem countWhileGo_run (p : Char → Bool) :
    ∀ (w : List Char) (d : Char) (t : List Char),
      (∀ c ∈ w, p c = true) → p d = false →
      countWhileGo p (w ++ d :: t) = some w.length := by
  intro w
  induction w with
  | nil => intro d t _ hd; simp [countWhileGo, hd]
  | cons c r ih =>
    intro d t hw hd
    have hc := hw c (List.mem_cons_self c r)
    simp [countWhileGo, hc,
      ih d t (fun u hu => hw u (List.mem_cons_of_mem c hu)) hd]

theorem consumeWhile_run {p : Char → Bool} {src w t : List Char}
    {d : Char} {i : Nat} (hsrc : src.drop i = w ++ d :: t)
    (hw : ∀ c ∈ w, p c = true) (hd : p d = false) :
    consumeWhile p src i = some (i + w.length) := by
  unfold consumeWhile
  rw [hsrc, countWhileGo_run p w d t hw hd]
  rfl

theorem subAt_head_ne {c d : Char} {cs ds : List Char} (h : c ≠ d) :
    subAt (c :: cs) (d :: ds) = false := by
  simp [subAt, h]

theorem pyFindAux_at (c : Char) (cs : List Char) :
    ∀ (l : List Char) (p n : Nat),
      (∀ k, k < n → subAt (c :: cs) (l.drop k) = false) →
      subAt (c :: cs) (l.drop n) = true →
      pyFindAux (c :: cs) l p = some (p + n) := by
  intro l
  induction l with
  | nil =>
    intro p n _ hat
    rw [List.drop_nil] at hat
    simp [subAt] at hat
  | cons x xs ih =>
    intro p n hlt hat
    cases n with
    | zero =>
      rw [List.drop_zero] at hat
      simp [pyFindAux, hat]
    | succ m =>
      have h0 : subAt (c :: cs) (x :: xs) = false := by
        have := hlt 0 (Nat.succ_pos m)
        rwa [List.drop_zero] at this
      unfold pyFindAux
      rw [h0]
      simp only [Bool.false_eq_true, if_false]
      have hres := ih (p + 1) m
        (fun k hk => hlt (k + 1) (by omega))
        hat
      rw [hres]
      congr 1
      omega

theorem pyFindAux_lb (c : Char) (cs : List Char) :
    ∀ (l : List Char) (p n : Nat),
      (∀ k, k < n → subAt (c :: cs) (l.drop k) = false) →
      ∀ q, pyFindAux (c :: cs) l p = some q → p + n ≤ q := by
  intro l
  induction l with
  | nil => intro p n _ q hq; simp [pyFindAux] at hq
  | cons x xs ih =>
    intro p n hlt q hq
    cases n with
    | zero => simpa using pyFindAux_ge hq
    | succ m =>
      have h0 : subAt (c :: cs) (x :: xs) = false := by
        have := hlt 0 (Nat.succ_pos m)
        rwa [List.drop_zero] at this
      unfold pyFindAux at hq
      rw [h0] at hq
      simp only [Bool.false_eq_true, if_false] at hq
      have := ih (p + 1) m (fun k hk => hlt (k + 1) (by omega)) q hq
      omega

theorem pyFind_at {src a t : List Char} {c : Char} {r : List Char}
    {start n : Nat} (hdrop : src.drop start = a ++ t)
    (hn : a.length = n)
    (hlt : ∀ k, k < n → subAt (c :: r) ((a ++ t).drop k) = false)
    (hat : subAt (c :: r) ((a ++ t).drop n) = true) :
    pyFind src (c :: r) start = some (start + n) := by
  unfold pyFind
  rw [hdrop]
  exact pyFindAux_at c r _ start n hlt hat

theorem pyFind_lb {src l : List Char} {c : Char} {r : List Char}
    {start n : Nat} (hdrop : src.drop start = l)
    (hlt : ∀ k, k < n → subAt (c :: r) (l.drop k) = false) :
    ∀ q, pyFind src (c :: r) start = some q → start + n ≤ q := by
  intro q hq
  unfold pyFind at hq
  rw [hdrop] at hq
  exact pyFindAux_lb c r l start n hlt q hq

theorem foldl_min_eq : ∀ (l : List Nat) (e m : Nat),
    (m ∈ l ∨ m = e) → (∀ x ∈ l, m ≤ x) → m ≤ e → l.foldl min e = m := by
  intro l
  induction l with
  | nil =>
    intro e m hmem _ _
    rcases hmem with h | h
    · cases h
    · simp [h]
  | cons x xs ih =>
    intro e m hmem hle he
    have hx : m ≤ x := hle x (List.mem_cons_self x xs)
    have step : (x :: xs).foldl min e = xs.foldl min (min e x) := by
      simp [List.foldl_cons]
    rw [step]
    rcases hmem with h | h
    · rcases List.mem_cons.mp h with rfl | hxs
      · exact ih (min e m) m (Or.inr (by omega))
          (fun u hu => hle u (List.mem_cons_of_mem _ hu)) (by omega)
      · exact ih _ m (Or.inl hxs)
          (fun u hu => hle u (List.mem_cons_of_mem _ hu)) (by omega)
    · subst h
      exact ih _ m (Or.inr (by omega))
        (fun u hu => hle u (List.mem_cons_of_mem _ hu)) (by omega)

theorem minCandidates_eq {l : List (Option Nat)} {m e : Nat}
    (hmem : some m ∈ l) (hle : ∀ o ∈ l, ∀ q, o = some q → m ≤ q)
    (he : m ≤ e) : minCandidates l e = m := by
  unfold minCandidates
  apply foldl_min_eq
  · left
    exact List.mem_filterMap.mpr ⟨some m, hmem, rfl⟩
  · intro x hx
    obtain ⟨o, ho, hid⟩ := List.mem_filterMap.mp hx
    exact hle o ho x hid
  · exact he


theorem getElem?_head_of_drop {src t : List Char} {c : Char} {i : Nat}
    (h : src.drop i = c :: t) : src[i]? = some c := by
  have h3 : (src.drop i)[0]? = some c := by rw [h]; simp
  rwa [List.getElem?_drop, Nat.add_zero] at h3

theorem charClassOf_unrecognized {c : Char} (hc : recognizedChar c = false) :
    charClassOf c = CharCl.other := by
  simp only [recognizedChar, Bool.or_eq_false_iff] at hc
  obtain ⟨⟨⟨⟨⟨⟨⟨⟨⟨⟨⟨⟨⟨⟨⟨⟨⟨⟨⟨⟨⟨⟨⟨⟨⟨⟨⟨⟨⟨⟨⟨h1, h2⟩, h3⟩, h4⟩, h5⟩, h6⟩,
    h7⟩, h8⟩, h9⟩, h10⟩, h11⟩, h12⟩, h13⟩, h14⟩, h15⟩, h16⟩, h17⟩, h18⟩,
    h19⟩, h20⟩, h21⟩, h22⟩, h23⟩, h24⟩, h25⟩, h26⟩, h27⟩, h28⟩, h29⟩,
    h30⟩, h31⟩, h32⟩ := hc
  simp only [decide_eq_false_iff_not] at *
  simp [charClassOf, h1, h2, h3, h4, h5, h6, h7, h8, h9, h10, h11, h12,
    h13, h14, h15, h16, h17, h18, h19, h20, h21, h22, h23, h24, h25, h26,
    h27, h28, h29, h30, h31, h32]

theorem unrecognized_nonspace {c : Char} (hc : recognizedChar c = false) :
    pyIsSpace c = false := by
  unfold recognizedChar at hc
  exact (Bool.or_eq_false_iff.mp hc).2

/-- One step over an identifier word (with its leading whitespace run)
yields a single NAME token. -/
theorem wordStep {src sp w t : List Char} {d : Char} {i : Nat}
    (hsp : WsRun sp) (hw : WordOk w) (hd1 : identChar d = false)
    (hd2 : d ≠ squote) (hd3 : d ≠ '"')
    (hdrop : src.drop i = sp ++ (w ++ d :: t)) :
    tokStep ⟨src, i, 0⟩ =
      .yield ⟨.name, w, i + sp.length, i + sp.length + w.length⟩
        ⟨src, i + sp.length + w.length, 0⟩ := by
  obtain ⟨hne, hwc⟩ := hw
  obtain ⟨c0, w', rfl⟩ : ∃ c0 w', w = c0 :: w' := by
    cases w
    · exact absurd rfl hne
    · exact ⟨_, _, rfl⟩
  have hc0 := hwc c0 (List.mem_cons_self _ _)
  have hskip : skipWs src i = i + sp.length := by
    unfold skipWs
    rw [hdrop]
    have hre : sp ++ ((c0 :: w') ++ d :: t) = sp ++ c0 :: (w' ++ d :: t) := by
      simp
    rw [hre, countWs_append_run sp hsp _ _ hc0.2]
  have hstart : src.drop (i + sp.length) = (c0 :: w') ++ d :: t :=
    drop_of_drop hdrop rfl
  have hch : src[i + sp.length]? = some c0 := getElem?_head_of_drop hstart
  have hclass : charClassOf c0 = CharCl.ident := by
    simp [charClassOf, hc0.1]
  have hcw : consumeWhile identChar src (i + sp.length) =
      some (i + sp.length + (c0 :: w').length) :=
    consumeWhile_run hstart
      (fun u hu => by simp [identChar, (hwc u hu).1]) hd1
  have hd : src[i + sp.length + (c0 :: w').length]? = some d :=
    getElem?_of_drop hstart rfl
  have hslice : pySlice src (i + sp.length)
      (i + sp.length + (c0 :: w').length) = c0 :: w' :=
    pySlice_of_drop hstart rfl
  have hlen : (c0 :: w').length = w'.length + 1 := rfl
  unfold tokStep
  simp only [hskip]
  unfold tokDispatch
  simp only [hch, hclass]
  unfold lexName
  simp only [hcw, hd]
  rw [if_neg (by simp [hd2]), if_neg (by simp [hd3])]
  unfold emit
  rw [if_neg (by simp), if_pos (by omega)]
  rw [hslice]

/-- One step over an unrecognized character inside a suppressed region. -/
theorem junkStep {src sp t : List Char} {c : Char} {i k : Nat}
    (hsp : WsRun sp) (hc : recognizedChar c = false) (hcnt : k ≠ 0)
    (hdrop : src.drop i = sp ++ c :: t) :
    tokStep ⟨src, i, k⟩ = .skip ⟨src, i + sp.length + 1, k⟩ := by
  have hskip : skipWs src i = i + sp.length := by
    unfold skipWs
    rw [hdrop, countWs_append_run sp hsp _ _ (unrecognized_nonspace hc)]
  have hstart : src.drop (i + sp.length) = c :: t := drop_of_drop hdrop rfl
  have hch : src[i + sp.length]? = some c := getElem?_head_of_drop hstart
  unfold tokStep
  simp only [hskip]
  unfold tokDispatch
  simp only [hch, charClassOf_unrecognized hc]
  rw [if_pos hcnt]

/-- The final step: only whitespace remains, so the loop ends. -/
theorem doneStep {src w : List Char} {i cnt : Nat}
    (hsp : WsRun w) (hdrop : src.drop i = w) :
    tokStep ⟨src, i, cnt⟩ = .done := by
  have hlen : w.length = src.length - i := by
    rw [← hdrop, List.length_drop]
  have hskip : skipWs src i = i + w.length := by
    unfold skipWs
    rw [hdrop, countWs_all w hsp]
  have hnone : src[i + w.length]? = none := by
    apply List.getElem?_eq_none
    omega
  unfold tokStep
  simp only [hskip]
  unfold tokDispatch
  simp only [hnone]

theorem steps_trans {a b c : TkState} {t1 t2 : List Tok}
    (h1 : Steps a t1 b) (h2 : Steps b t2 c) : Steps a (t1 ++ t2) c := by
  induction h1 with
  | refl => simpa using h2
  | skip hs _ ih => exact .skip hs (ih h2)
  | yield hy _ ih => exact .yield hy (ih h2)

theorem steps_run {st st2 : TkState} {toks : List Tok}
    (h : Steps st toks st2) (hd : tokStep st2 = .done) :
    ∃ fuel, tokLoop fuel st = (toks, .ok) := by
  induction h with
  | refl => exact ⟨1, by simp [tokLoop, hd]⟩
  | skip hs _ ih =>
    obtain ⟨f, hf⟩ := ih hd
    exact ⟨f + 1, by simp [tokLoop, hs, hf]⟩
  | yield hy _ ih =>
    obtain ⟨f, hf⟩ := ih hd
    exact ⟨f + 1, by simp [tokLoop, hy, hf]⟩


/-- The directive scan on an `#if 0` line: one iteration, stopping at the
newline, incrementing the depth counter. -/
theorem ppScan_if0 {src tail : List Char} {start k : Nat}
    (hstart : src.drop start = ifLine ++ tail) :
    ppScan true start (src.length + 2) src start k =
      .ok src (start + 5) (k + 1) := by
  have hlen : src.length - start = 6 + tail.length := by
    have h := congrArg List.length hstart
    rw [List.length_drop, List.length_append] at h
    simpa [ifLine] using h
  have hstart4 : src.drop (start + 4) = '0' :: '\n' :: tail :=
    drop_of_drop
      (show src.drop start = ['#', 'i', 'f', ' '] ++ ('0' :: '\n' :: tail)
        from hstart) rfl
  have h4ch : src[start + 4]? = some '0' := getElem?_head_of_drop hstart4
  have h5ch : src[start + 5]? = some '\n' :=
    getElem?_of_drop
      (show src.drop start = ['#', 'i', 'f', ' ', '0'] ++ ('\n' :: tail)
        from hstart) rfl
  have hi1 : pyFind src ['\n'] start = some (start + 5) :=
    pyFind_at
      (show src.drop start = ['#', 'i', 'f', ' ', '0'] ++ ('\n' :: tail)
        from hstart) rfl
      (by intro k hk; interval_cases k <;> exact subAt_head_ne (by decide))
      (by rfl)
  have hi2 := pyFind_lb (c := '/') (r := ['/']) (n := 6) hstart
    (by intro k hk; interval_cases k <;> exact subAt_head_ne (by decide))
  have hi3 := pyFind_lb (c := '/') (r := ['*']) (n := 6) hstart
    (by intro k hk; interval_cases k <;> exact subAt_head_ne (by decide))
  have hi4 := pyFind_lb (c := '"') (r := []) (n := 6) hstart
    (by intro k hk; interval_cases k <;> exact subAt_head_ne (by decide))
  have him : minCandidates [pyFind src ['\n'] start,
      pyFind src ['/', '/'] start, pyFind src ['/', '*'] start,
      pyFind src ['"'] start] src.length = start + 5 := by
    apply minCandidates_eq
    · rw [hi1]; exact List.mem_cons_self _ _
    · intro o ho q hoq
      simp only [List.mem_cons, List.not_mem_nil, or_false] at ho
      rcases ho with rfl | rfl | rfl | rfl
      · rw [hi1] at hoq; cases hoq; omega
      · have := hi2 q hoq; omega
      · have := hi3 q hoq; omega
      · have := hi4 q hoq; omega
    · omega
  have hi3ne : ¬ (pyFind src ['/', '*'] start = some (start + 5)) := by
    intro h
    have := hi3 _ h
    omega
  have hpm : pyIndexI src (((start + 5 : Nat) : Int) - 1) = some '0' := by
    unfold pyIndexI
    rw [if_pos (by omega)]
    have ht : (((start + 5 : Nat) : Int) - 1).toNat = start + 4 := by omega
    rw [ht, h4ch]
  have hfb : pyFindB src ['('] start (start + 5) = none := by
    unfold pyFindB
    have hts : (src.take (start + 5)).drop start = ['#', 'i', 'f', ' ', '0']
        := by
      rw [List.drop_take]
      have h5 : start + 5 - start = 5 := by omega
      rw [h5, hstart]
      rfl
    rw [hts]
    rfl
  have hsp0 : pyFind src [' '] start = some (start + 3) :=
    pyFind_at
      (show src.drop start = ['#', 'i', 'f'] ++ (' ' :: '0' :: '\n' :: tail)
        from hstart) rfl
      (by intro k hk; interval_cases k <;> exact subAt_head_ne (by decide))
      (by rfl)
  have hbn : ((((start + 3 : Nat) : Int)) + 1).toNat = start + 4 := by omega
  have hs1 : ∀ q, pyFind src [' '] (start + 4) = some q → start + 5 ≤ q := by
    intro q hq
    have := pyFind_lb (n := 2) hstart4
      (by intro k hk; interval_cases k <;> exact subAt_head_ne (by decide))
      q hq
    omega
  have hs2 : ∀ q, pyFind src [')'] (start + 4) = some q → start + 5 ≤ q := by
    intro q hq
    have := pyFind_lb (n := 2) hstart4
      (by intro k hk; interval_cases k <;> exact subAt_head_ne (by decide))
      q hq
    omega
  have hs3 : pyFind src ['\n'] (start + 4) = some (start + 5) :=
    pyFind_at (c := '\n') (r := []) (n := 1) (a := ['0'])
      (show src.drop (start + 4) = ['0'] ++ ('\n' :: tail) from hstart4) rfl
      (by intro k hk; interval_cases k <;> exact subAt_head_ne (by decide))
      (by rfl)
  have hsmin : minCandidates [pyFind src [' '] (start + 4),
      pyFind src [')'] (start + 4), pyFind src ['\n'] (start + 4)]
      src.length = start + 5 := by
    apply minCandidates_eq
    · rw [hs3]
      simp
    · intro o ho q hoq
      simp only [List.mem_cons, List.not_mem_nil, or_false] at ho
      rcases ho with rfl | rfl | rfl
      · exact hs1 q hoq
      · exact hs2 q hoq
      · rw [hs3] at hoq; cases hoq; omega
    · omega
  have hcond : pySlice src (start + 4) (start + 5) = ['0'] :=
    pySlice_of_drop (w := ['0']) (n := 1) hstart4 rfl
  rw [show src.length + 2 = (src.length + 1) + 1 from rfl]
  simp only [ppScan]
  rw [him]
  rw [if_neg hi3ne]
  simp only [h5ch]
  rw [if_neg (show ¬('\n' = '"') by decide)]
  simp only [hi1, hpm]
  rw [if_neg (by simp)]
  simp only [if_true]
  simp only [hfb, hsp0]
  rw [hbn]
  rw [hsmin]
  rw [hcond]
  rw [if_pos (by simp)]

/-- The directive scan on an `#endif` line: one iteration, stopping at the
newline, leaving the passed depth counter unchanged. -/
theorem ppScan_endif {src tail : List Char} {start k : Nat}
    (hstart : src.drop start = endifLine ++ tail) :
    ppScan false start (src.length + 2) src start k =
      .ok src (start + 6) k := by
  have hlen : src.length - start = 7 + tail.length := by
    have h := congrArg List.length hstart
    rw [List.length_drop, List.length_append] at h
    simpa [endifLine] using h
  have h5ch : src[start + 5]? = some 'f' :=
    getElem?_of_drop
      (show src.drop start =
        ['#', 'e', 'n', 'd', 'i'] ++ ('f' :: '\n' :: tail) from hstart) rfl
  have h6ch : src[start + 6]? = some '\n' :=
    getElem?_of_drop
      (show src.drop start =
        ['#', 'e', 'n', 'd', 'i', 'f'] ++ ('\n' :: tail) from hstart) rfl
  have hi1 : pyFind src ['\n'] start = some (start + 6) :=
    pyFind_at
      (show src.drop start =
        ['#', 'e', 'n', 'd', 'i', 'f'] ++ ('\n' :: tail) from hstart) rfl
      (by intro k hk; interval_cases k <;> exact subAt_head_ne (by decide))
      (by rfl)
  have hi2 := pyFind_lb (c := '/') (r := ['/']) (n := 7) hstart
    (by intro k hk; interval_cases k <;> exact subAt_head_ne (by decide))
  have hi3 := pyFind_lb (c := '/') (r := ['*']) (n := 7) hstart
    (by intro k hk; interval_cases k <;> exact subAt_head_ne (by decide))
  have hi4 := pyFind_lb (c := '"') (r := []) (n := 7) hstart
    (by intro k hk; interval_cases k <;> exact subAt_head_ne (by decide))
  have him : minCandidates [pyFind src ['\n'] start,
      pyFind src ['/', '/'] start, pyFind src ['/', '*'] start,
      pyFind src ['"'] start] src.length = start + 6 := by
    apply minCandidates_eq
    · rw [hi1]; exact List.mem_cons_self _ _
    · intro o ho q hoq
      simp only [List.mem_cons, List.not_mem_nil, or_false] at ho
      rcases ho with rfl | rfl | rfl | rfl
      · rw [hi1] at hoq; cases hoq; omega
      · have := hi2 q hoq; omega
      · have := hi3 q hoq; omega
      · have := hi4 q hoq; omega
    · omega
  have hi3ne : ¬ (pyFind src ['/', '*'] start = some (start + 6)) := by
    intro h
    have := hi3 _ h
    omega
  have hpm : pyIndexI src (((start + 6 : Nat) : Int) - 1) = some 'f' := by
    unfold pyIndexI
    rw [if_pos (by omega)]
    have ht : (((start + 6 : Nat) : Int) - 1).toNat = start + 5 := by omega
    rw [ht, h5ch]
  rw [show src.length + 2 = (src.length + 1) + 1 from rfl]
  simp only [ppScan]
  rw [him]
  rw [if_neg hi3ne]
  simp only [h6ch]
  rw [if_neg (show ¬('\n' = '"') by decide)]
  simp only [hi1, hpm]
  rw [if_neg (by simp)]
  rw [if_neg (by simp)]


/-- A step at a `#if 0` line (at any suppression depth): no token, the
depth counter is incremented, and the scan stops at the line's newline. -/
theorem ifStep {src sp tail : List Char} {i k : Nat}
    (hsp : WsRun sp) (hdrop : src.drop i = sp ++ (ifLine ++ tail)) :
    tokStep ⟨src, i, k⟩ = .skip ⟨src, i + sp.length + 5, k + 1⟩ := by
  have hstart : src.drop (i + sp.length) = ifLine ++ tail :=
    drop_of_drop hdrop rfl
  have hskip : skipWs src i = i + sp.length := by
    unfold skipWs
    rw [hdrop]
    have hre : sp ++ (ifLine ++ tail) =
        sp ++ '#' :: (['i', 'f', ' ', '0', '\n'] ++ tail) := rfl
    rw [hre, countWs_append_run sp hsp _ _ (by decide)]
  have hch : src[i + sp.length]? = some '#' :=
    getElem?_head_of_drop
      (show src.drop (i + sp.length) =
        '#' :: (['i', 'f', ' ', '0', '\n'] ++ tail) from hstart)
  have hslice6 : pySlice src (i + sp.length) (i + sp.length + 6) = ifLine :=
    pySlice_of_drop (n := 6) hstart rfl
  have hend : isEndifAt src k (i + sp.length) = false := by
    unfold isEndifAt
    rw [hslice6]
    simp [ifLine]
  have hslice3 : pySlice src (i + sp.length) (i + sp.length + 3) =
      ['#', 'i', 'f'] :=
    pySlice_of_drop (w := ['#', 'i', 'f']) (n := 3)
      (show src.drop (i + sp.length) =
        ['#', 'i', 'f'] ++ ([' ', '0', '\n'] ++ tail) from hstart) rfl
  have hpp := ppScan_if0 (k := k) hstart
  unfold tokStep
  simp only [hskip]
  unfold tokDispatch
  simp only [hch]
  rw [show charClassOf '#' = CharCl.hash from rfl]
  unfold lexHash
  rw [hend]
  simp only [Bool.false_and, Bool.false_eq_true, if_false]
  rw [hslice3]
  rw [show (decide ((['#', 'i', 'f'] : List Char) = "#if".toList)) = true
    from rfl]
  simp only [hpp]
  unfold emit
  rw [if_pos (by omega)]

/-- A step at a nested `#endif` (depth at least 2): no token, the depth
counter is decremented, the scan stops at the line's newline. -/
theorem endifInnerStep {src sp tail : List Char} {i k : Nat}
    (hsp : WsRun sp) (hcnt : 2 ≤ k)
    (hdrop : src.drop i = sp ++ (endifLine ++ tail)) :
    tokStep ⟨src, i, k⟩ = .skip ⟨src, i + sp.length + 6, k - 1⟩ := by
  have hstart : src.drop (i + sp.length) = endifLine ++ tail :=
    drop_of_drop hdrop rfl
  have hskip : skipWs src i = i + sp.length := by
    unfold skipWs
    rw [hdrop]
    have hre : sp ++ (endifLine ++ tail) =
        sp ++ '#' :: (['e', 'n', 'd', 'i', 'f', '\n'] ++ tail) := rfl
    rw [hre, countWs_append_run sp hsp _ _ (by decide)]
  have hch : src[i + sp.length]? = some '#' :=
    getElem?_head_of_drop
      (show src.drop (i + sp.length) =
        '#' :: (['e', 'n', 'd', 'i', 'f', '\n'] ++ tail) from hstart)
  have hslice6 : pySlice src (i + sp.length) (i + sp.length + 6) =
      ['#', 'e', 'n', 'd', 'i', 'f'] :=
    pySlice_of_drop (w := ['#', 'e', 'n', 'd', 'i', 'f']) (n := 6)
      (show src.drop (i + sp.length) =
        ['#', 'e', 'n', 'd', 'i', 'f'] ++ ('\n' :: tail) from hstart) rfl
  have hend : isEndifAt src k (i + sp.length) = true := by
    unfold isEndifAt
    rw [hslice6]
    simp [show k ≠ 0 from by omega]
  have hslice3 : pySlice src (i + sp.length) (i + sp.length + 3) =
      ['#', 'e', 'n'] :=
    pySlice_of_drop (w := ['#', 'e', 'n']) (n := 3)
      (show src.drop (i + sp.length) =
        ['#', 'e', 'n'] ++ (['d', 'i', 'f', '\n'] ++ tail) from hstart) rfl
  have hpp := ppScan_endif (k := k - 1) hstart
  unfold tokStep
  simp only [hskip]
  unfold tokDispatch
  simp only [hch]
  rw [show charClassOf '#' = CharCl.hash from rfl]
  unfold lexHash
  rw [hend]
  simp only [Bool.true_and]
  rw [if_neg (by simp; omega)]
  rw [hslice3]
  rw [show (decide ((['#', 'e', 'n'] : List Char) = "#if".toList)) = false
    from rfl]
  simp only [if_true]
  simp only [hpp]
  unfold emit
  rw [if_pos (by omega)]

/-- A step at the outer `#endif` (depth exactly 1): no token, the `#endif`
text is blanked in place and the position stays at its start with the
depth counter reset to 0. -/
theorem endifOuterStep {src sp tail : List Char} {i : Nat}
    (hsp : WsRun sp) (hdrop : src.drop i = sp ++ (endifLine ++ tail)) :
    tokStep ⟨src, i, 1⟩ =
      .skip ⟨blankRange src (i + sp.length) (i + sp.length + 6),
        i + sp.length, 0⟩ := by
  have hstart : src.drop (i + sp.length) = endifLine ++ tail :=
    drop_of_drop hdrop rfl
  have hskip : skipWs src i = i + sp.length := by
    unfold skipWs
    rw [hdrop]
    have hre : sp ++ (endifLine ++ tail) =
        sp ++ '#' :: (['e', 'n', 'd', 'i', 'f', '\n'] ++ tail) := rfl
    rw [hre, countWs_append_run sp hsp _ _ (by decide)]
  have hch : src[i + sp.length]? = some '#' :=
    getElem?_head_of_drop
      (show src.drop (i + sp.length) =
        '#' :: (['e', 'n', 'd', 'i', 'f', '\n'] ++ tail) from hstart)
  have hslice6 : pySlice src (i + sp.length) (i + sp.length + 6) =
      ['#', 'e', 'n', 'd', 'i', 'f'] :=
    pySlice_of_drop (w := ['#', 'e', 'n', 'd', 'i', 'f']) (n := 6)
      (show src.drop (i + sp.length) =
        ['#', 'e', 'n', 'd', 'i', 'f'] ++ ('\n' :: tail) from hstart) rfl
  have hend : isEndifAt src 1 (i + sp.length) = true := by
    unfold isEndifAt
    rw [hslice6]
    simp
  unfold tokStep
  simp only [hskip]
  unfold tokDispatch
  simp only [hch]
  rw [show charClassOf '#' = CharCl.hash from rfl]
  unfold lexHash
  rw [hend]
  simp only [Bool.true_and]
  rw [if_pos (by simp)]


/-- Running a valid suppressed region from depth `d + 1` yields no tokens
and returns to depth 1 at the position of the closing context. -/
theorem regionRun (src : List Char) :
    ∀ {R : List SAtom} {d : Nat}, OkAtoms R d →
      ∀ i sp tail, WsRun sp →
        src.drop i = sp ++ (renderAtoms R ++ tail) →
        ∃ i' sp', Steps ⟨src, i, d + 1⟩ [] ⟨src, i', 1⟩ ∧ WsRun sp' ∧
          src.drop i' = sp' ++ tail := by
  intro R d hok
  induction hok with
  | nil =>
    intro i sp tail hsp hdrop
    exact ⟨i, sp, .refl _, hsp, by simpa [renderAtoms] using hdrop⟩
  | @junk c r dd hc _ ih =>
    intro i sp tail hsp hdrop
    have hdrop' : src.drop i = sp ++ c :: (renderAtoms r ++ tail) := by
      simpa [renderAtoms, renderAtom] using hdrop
    have hstep := junkStep (k := dd + 1) hsp hc (by omega) hdrop'
    have hnext : src.drop (i + (sp.length + 1)) = renderAtoms r ++ tail :=
      drop_of_drop (a := sp ++ [c])
        (by simpa [List.append_assoc] using hdrop') (by simp)
    obtain ⟨i', sp', hsteps, hsp', hdrop''⟩ :=
      ih (i + sp.length + 1) [] tail (by intro u hu; cases hu)
        (by simpa using hnext)
    exact ⟨i', sp', .skip hstep hsteps, hsp', hdrop''⟩
  | @wsa c r dd hc _ ih =>
    intro i sp tail hsp hdrop
    refine ih i (sp ++ [c]) tail ?_ ?_
    · intro u hu
      rcases List.mem_append.mp hu with h | h
      · exact hsp u h
      · rcases List.mem_singleton.mp h with rfl
        exact hc
    · simpa [renderAtoms, renderAtom, List.append_assoc] using hdrop
  | @opn r dd _ ih =>
    intro i sp tail hsp hdrop
    have hdrop' : src.drop i = sp ++ (ifLine ++ (renderAtoms r ++ tail)) := by
      simpa [renderAtoms, renderAtom, List.append_assoc] using hdrop
    have hstep := ifStep (k := dd + 1) hsp hdrop'
    have hnext : src.drop (i + (sp.length + 5)) =
        '\n' :: (renderAtoms r ++ tail) :=
      drop_of_drop (a := sp ++ ['#', 'i', 'f', ' ', '0'])
        (by simpa [ifLine, List.append_assoc] using hdrop') (by simp)
    obtain ⟨i', sp', hsteps, hsp', hdrop''⟩ :=
      ih (i + sp.length + 5) ['\n'] tail
        (by intro u hu; rcases List.mem_singleton.mp hu with rfl; decide)
        (by simpa using hnext)
    exact ⟨i', sp', .skip hstep hsteps, hsp', hdrop''⟩
  | @cls r dd _ ih =>
    intro i sp tail hsp hdrop
    have hdrop' : src.drop i =
        sp ++ (endifLine ++ (renderAtoms r ++ tail)) := by
      simpa [renderAtoms, renderAtom, List.append_assoc] using hdrop
    have hstep := endifInnerStep (k := dd + 1 + 1) hsp (by omega) hdrop'
    have hnext : src.drop (i + (sp.length + 6)) =
        '\n' :: (renderAtoms r ++ tail) :=
      drop_of_drop (a := sp ++ ['#', 'e', 'n', 'd', 'i', 'f'])
        (by simpa [endifLine, List.append_assoc] using hdrop') (by simp)
    obtain ⟨i', sp', hsteps, hsp', hdrop''⟩ :=
      ih (i + sp.length + 6) ['\n'] tail
        (by intro u hu; rcases List.mem_singleton.mp hu with rfl; decide)
        (by simpa using hnext)
    exact ⟨i', sp', .skip hstep hsteps, hsp', hdrop''⟩

/-- Running a rendered word list at depth 0 yields exactly its NAME
tokens. -/
theorem wordsRun (src : List Char) :
    ∀ (P : List (List Char)) (i : Nat) (sp tail : List Char),
      WordsOk P → WsRun sp → GoodFollow tail →
      src.drop i = sp ++ (renderWordsB P ++ tail) →
      ∃ i' sp',
        Steps ⟨src, i, 0⟩ (wordToksB P (i + sp.length)) ⟨src, i', 0⟩ ∧
        WsRun sp' ∧ src.drop i' = sp' ++ tail := by
  intro P
  induction P with
  | nil =>
    intro i sp tail _ hsp _ hdrop
    exact ⟨i, sp, .refl _, hsp, by simpa [renderWordsB] using hdrop⟩
  | cons w rest ih =>
    intro i sp tail hok hsp hgf hdrop
    have hw : WordOk w := hok w (List.mem_cons_self _ _)
    have hsp' : WsRun (sp ++ [' ']) := by
      intro u hu
      rcases List.mem_append.mp hu with h | h
      · exact hsp u h
      · rcases List.mem_singleton.mp h with rfl
        decide
    have hlen1 : (sp ++ [' ']).length = sp.length + 1 := by simp
    cases rest with
    | nil =>
      cases tail with
      | nil => exact hgf.elim
      | cons dd t =>
        obtain ⟨hd1, hd2, hd3⟩ := hgf
        have hdrop' : src.drop i = (sp ++ [' ']) ++ (w ++ dd :: t) := by
          simpa [renderWordsB, List.append_assoc] using hdrop
        have hstep := wordStep hsp' hw hd1 hd2 hd3 hdrop'
        rw [hlen1] at hstep
        have hnext : src.drop (i + sp.length + 1 + w.length) = dd :: t := by
          have h := drop_of_drop (a := (sp ++ [' ']) ++ w)
            (n := sp.length + 1 + w.length)
            (by simpa [List.append_assoc] using hdrop')
            (by simp only [List.length_append, List.length_cons,
              List.length_nil, Nat.add_zero]
                <;> omega)
          rwa [show i + (sp.length + 1 + w.length) =
            i + sp.length + 1 + w.length from by omega] at h
        refine ⟨i + sp.length + 1 + w.length, [], ?_, ?_, ?_⟩
        · exact .yield hstep (.refl _)
        · intro u hu; cases hu
        · simpa using hnext
    | cons w2 rest2 =>
      have hdrop' : src.drop i = (sp ++ [' ']) ++
          (w ++ ' ' :: ((w2 ++ renderWordsB rest2) ++ tail)) := by
        simpa [renderWordsB, List.append_assoc] using hdrop
      have hstep := wordStep hsp' hw (by decide) (by decide) (by decide)
        hdrop'
      rw [hlen1] at hstep
      have hnext : src.drop (i + sp.length + 1 + w.length) =
          [] ++ (renderWordsB (w2 :: rest2) ++ tail) := by
        have h := drop_of_drop (a := (sp ++ [' ']) ++ w)
          (n := sp.length + 1 + w.length)
          (by simpa [List.append_assoc] using hdrop')
          (by simp only [List.length_append, List.length_cons,
            List.length_nil, Nat.add_zero]
              <;> omega)
        rw [show i + (sp.length + 1 + w.length) =
          i + sp.length + 1 + w.length from by omega] at h
        simpa [renderWordsB, List.append_assoc] using h
      obtain ⟨i', sp', hsteps, hspr, hdrop''⟩ :=
        ih (i + sp.length + 1 + w.length) [] tail
          (fun u hu => hok u (List.mem_cons_of_mem _ hu))
          (by intro u hu; cases hu) hgf hnext
      exact ⟨i', sp', .yield hstep hsteps, hspr, hdrop''⟩


theorem blankRange_drop {s : List Char} {a : Nat} (ha : a + 6 ≤ s.length) :
    (blankRange s a (a + 6)).drop a =
      List.replicate 6 ' ' ++ s.drop (a + 6) := by
  simp only [blankRange]
  have hta : (s.take a).length = a := by
    rw [List.length_take]; omega
  rw [hta, show a + 6 - a = 6 from by omega, List.append_assoc]
  calc (s.take a ++ (List.replicate 6 ' ' ++ s.drop (a + 6))).drop a
      = (s.take a ++
          (List.replicate 6 ' ' ++ s.drop (a + 6))).drop (s.take a).length
        := by rw [hta]
    _ = List.replicate 6 ' ' ++ s.drop (a + 6) := List.drop_left _ _

/-- C4: tokenizing a word prefix, an `#if 0` region (possibly containing
unrecognized characters, whitespace and balanced nested `#if`/`#endif`
pairs) closed by its matching `#endif`, and a word suffix yields exactly
the prefix and suffix NAME tokens — zero tokens from the suppressed
region — with outcome `ok` (no raised error); the nesting is tracked by
the incremented/decremented `count_ifs` counter (`OkAtoms` depth). -/
theorem c4_theorem (P S : List (List Char)) (R : List SAtom)
    (hP : WordsOk P) (hS : WordsOk S) (hR : OkAtoms R 0) :
    ∃ fuel, getTokens fuel (c4Source P R S) =
      (wordToksB P 0 ++
        wordToksB S
          ((renderWordsB P).length + (renderAtoms R).length + 13),
        .ok) := by
  have hlast : (c4Source P R S).getLast? = some '\n' := by
    have hre : c4Source P R S =
        (renderWordsB P ++ ifLine ++ renderAtoms R ++ endifLine ++
          renderWordsB S) ++ ['\n'] := by
      simp [c4Source, List.append_assoc]
    rw [hre, List.getLast?_concat]
  have hget : ∀ fuel, getTokens fuel (c4Source P R S) =
      tokLoop fuel ⟨c4Source P R S, 0, 0⟩ := by
    intro fuel
    simp [getTokens, hlast]
  have hlen0 : (c4Source P R S).length =
      (renderWordsB P).length + (renderAtoms R).length +
        (renderWordsB S).length + 14 := by
    simp only [c4Source, ifLine, endifLine, List.length_append,
      List.length_cons, List.length_nil]
    omega
  have hdrop0 : (c4Source P R S).drop 0 =
      [] ++ (renderWordsB P ++ (ifLine ++ (renderAtoms R ++
        (endifLine ++ (renderWordsB S ++ ['\n']))))) := by
    simp [c4Source, List.append_assoc]
  obtain ⟨i1, sp1, hsteps1, hsp1, hdrop1⟩ :=
    wordsRun (c4Source P R S) P 0 [] _ hP (by intro u hu; cases hu)
      (by
        show identChar '#' = false ∧ '#' ≠ squote ∧ '#' ≠ '"'
        exact ⟨by decide, by decide, by decide⟩)
      hdrop0
  have hstep2 := ifStep (k := 0) hsp1 hdrop1
  have hdropIf : (c4Source P R S).drop (i1 + sp1.length + 5) =
      '\n' :: (renderAtoms R ++ (endifLine ++ (renderWordsB S ++ ['\n'])))
      := by
    have h := drop_of_drop (a := sp1 ++ ['#', 'i', 'f', ' ', '0'])
      (n := sp1.length + 5)
      (by simpa [ifLine, List.append_assoc] using hdrop1)
      (by simp only [List.length_append, List.length_cons, List.length_nil,
        Nat.add_zero] <;> omega)
    rwa [show i1 + (sp1.length + 5) = i1 + sp1.length + 5 from by omega]
      at h
  obtain ⟨i2, sp2, hsteps3, hsp2, hdrop2⟩ :=
    regionRun (c4Source P R S) hR (i1 + sp1.length + 5) ['\n']
      (endifLine ++ (renderWordsB S ++ ['\n']))
      (by intro u hu; rcases List.mem_singleton.mp hu with rfl; decide)
      (by simpa using hdropIf)
  have hstep4 := endifOuterStep hsp2 hdrop2
  have h1 := congrArg List.length hdrop2
  rw [List.length_drop] at h1
  simp only [List.length_append, endifLine, List.length_cons,
    List.length_nil] at h1
  have hlenE : i2 + sp2.length =
      (renderWordsB P).length + (renderAtoms R).length + 6 := by omega
  have hlenBound : i2 + sp2.length + 6 ≤ (c4Source P R S).length := by
    omega
  have hdropE6 : (c4Source P R S).drop (i2 + sp2.length + 6) =
      '\n' :: (renderWordsB S ++ ['\n']) := by
    have h := drop_of_drop (a := sp2 ++ ['#', 'e', 'n', 'd', 'i', 'f'])
      (n := sp2.length + 6)
      (by simpa [endifLine, List.append_assoc] using hdrop2)
      (by simp only [List.length_append, List.length_cons, List.length_nil,
        Nat.add_zero] <;> omega)
    rwa [show i2 + (sp2.length + 6) = i2 + sp2.length + 6 from by omega]
      at h
  have hdropS : (blankRange (c4Source P R S) (i2 + sp2.length)
        (i2 + sp2.length + 6)).drop (i2 + sp2.length) =
      (List.replicate 6 ' ' ++ ['\n']) ++ (renderWordsB S ++ ['\n']) := by
    rw [blankRange_drop hlenBound, hdropE6]
    simp [List.append_assoc]
  obtain ⟨i3, sp3, hsteps5, hsp3, hdrop3⟩ :=
    wordsRun (blankRange (c4Source P R S) (i2 + sp2.length)
        (i2 + sp2.length + 6)) S
      (i2 + sp2.length) (List.replicate 6 ' ' ++ ['\n']) ['\n'] hS
      (by
        intro u hu
        rcases List.mem_append.mp hu with h | h
        · rw [List.eq_of_mem_replicate h]; decide
        · rcases List.mem_singleton.mp h with rfl; decide)
      (by
        show identChar '\n' = false ∧ '\n' ≠ squote ∧ '\n' ≠ '"'
        exact ⟨by decide, by decide, by decide⟩)
      hdropS
  have hdone : tokStep ⟨blankRange (c4Source P R S) (i2 + sp2.length)
      (i2 + sp2.length + 6), i3, 0⟩ = .done :=
    doneStep (w := sp3 ++ ['\n'])
      (by
        intro u hu
        rcases List.mem_append.mp hu with h | h
        · exact hsp3 u h
        · rcases List.mem_singleton.mp h with rfl; decide)
      (by simpa [List.append_assoc] using hdrop3)
  have htotal := steps_trans hsteps1
    (steps_trans (Steps.skip hstep2 hsteps3) (Steps.skip hstep4 hsteps5))
  obtain ⟨fuel, hfuel⟩ := steps_run htotal hdone
  refine ⟨fuel, ?_⟩
  rw [hget fuel, hfuel]
  rw [hlenE]
  simp

/-- Witness for C4 at the concrete source
`" foo#if 0\n@#endif\n bar\n"`-shaped input with a nested pair inside the
suppressed region. -/
theorem c4_theorem_witness :
    ∃ fuel, getTokens fuel (c4Source ["foo".toList]
        [SAtom.ifm, SAtom.junk '@', SAtom.endifm] ["bar".toList]) =
      (wordToksB ["foo".toList] 0 ++
        wordToksB ["bar".toList]
          ((renderWordsB ["foo".toList]).length +
            (renderAtoms [SAtom.ifm, SAtom.junk '@', SAtom.endifm]).length
              + 13),
        .ok) :=
  c4_theorem ["foo".toList] ["bar".toList]
    [SAtom.ifm, SAtom.junk '@', SAtom.endifm]
    (by
      intro w hw
      rcases List.mem_singleton.mp hw with rfl
      exact ⟨by decide, by intro c hc; fin_cases hc <;> exact ⟨by decide, by decide⟩⟩)
    (by
      intro w hw
      rcases List.mem_singleton.mp hw with rfl
      exact ⟨by decide, by intro c hc; fin_cases hc <;> exact ⟨by decide, by decide⟩⟩)
    (OkAtoms.opn (OkAtoms.junk (by decide) (OkAtoms.cls OkAtoms.nil)))

end Cppclean
